import Mathlib

/-!
# Blocksize selection for the triangular matrix product (`bli_trmm_blocksize.c`)

A shallow embedding of `frame/3/trmm/bli_trmm_blocksize.c` and a verification of
its contract.  The file holds two functions,

* `bli_trmm_determine_kc_f` (forward sweep), and
* `bli_trmm_determine_kc_b` (backward sweep),

which choose the size of the next chunk of the `k` dimension.  Both are pure
integer computations over two table lookups.

The integer type of offsets, extents and blocksizes (declared in `blis.h`, which
is not part of the translated file) is modelled by `Int`: subtraction is exact,
nothing is truncated and nothing wraps.  The C operators `/` and `%` truncate towards
zero, so they are `Int.tdiv` and `Int.tmod`.  A division by zero is undefined
in C; every theorem below that reaches a division assumes a non-zero divisor.
-/

namespace BlisTrmm

/-! ## Data model -/

/-- Modelled from the spec: the enumeration `num_t` of execution datatypes
(declared in `blis.h`): single and double precision, real and complex. -/
inductive num_t where
  | BLIS_FLOAT
  | BLIS_SCOMPLEX
  | BLIS_DOUBLE
  | BLIS_DCOMPLEX
  deriving DecidableEq, Repr

/-- Modelled from the spec: the matrix descriptor `obj_t` (declared in
`blis.h`).  Only the two properties the selectors read are kept: the execution
datatype and whether the root object is triangular. -/
structure obj_t where
  execution_datatype : num_t
  root_is_triangular : Bool
  deriving DecidableEq, Repr

/-- Modelled from the spec: the blocksize policy `blksz_t` (declared in
`blis.h`): for each datatype a default blocksize `v` and a maximum `m`. -/
structure blksz_t where
  v : num_t → Int
  m : num_t → Int

/-- Modelled from the spec: the table of hardware-tuned register blocksizes that
`bli_info_get_default_mr` and `bli_info_get_default_nr` read.  It is global
state of the library, passed explicitly here. -/
structure reg_blksz_t where
  mr : num_t → Int
  nr : num_t → Int

/-- The accessor `bli_obj_execution_datatype( obj )`. -/
@[simp] def bli_obj_execution_datatype (a : obj_t) : num_t := a.execution_datatype

/-- The accessor `bli_obj_root_is_triangular( obj )`. -/
@[simp] def bli_obj_root_is_triangular (a : obj_t) : Bool := a.root_is_triangular

/-- The accessor `bli_blksz_for_type( dt, b )`: the default blocksize. -/
@[simp] def bli_blksz_for_type (dt : num_t) (bsize : blksz_t) : Int := bsize.v dt

/-- The accessor `bli_blksz_max_for_type( dt, b )`: the maximum blocksize. -/
@[simp] def bli_blksz_max_for_type (dt : num_t) (bsize : blksz_t) : Int := bsize.m dt

/-- The query `bli_info_get_default_mr( dt )`: the row-oriented register tile. -/
@[simp] def bli_info_get_default_mr (cfg : reg_blksz_t) (dt : num_t) : Int := cfg.mr dt

/-- The query `bli_info_get_default_nr( dt )`: the column-oriented register tile. -/
@[simp] def bli_info_get_default_nr (cfg : reg_blksz_t) (dt : num_t) : Int := cfg.nr dt

/-- Modelled from the spec: the helper `bli_align_dim_to_mult( dim, dim_mult )`
is declared in `blis.h`, not in the translated file.  The spec says it rounds
`dim` up to the nearest multiple of `dim_mult`, leaving a multiple unchanged;
this is the usual integer formula for that, with C division. -/
def bli_align_dim_to_mult (dim dim_mult : Int) : Int :=
  ((dim + dim_mult - 1).tdiv dim_mult) * dim_mult

/-! ## The two selectors -/

/-- Forward selector, `bli_trmm_determine_kc_f` (lines 37-83). -/
def bli_trmm_determine_kc_f (cfg : reg_blksz_t) (i dim : Int) (a b : obj_t)
    (bsize : blksz_t) : Int :=
  let _unused := b
  let dt := bli_obj_execution_datatype a
  let b_alg := bli_blksz_for_type dt bsize
  let b_max := bli_blksz_max_for_type dt bsize
  let mnr :=
    if bli_obj_root_is_triangular a then bli_info_get_default_mr cfg dt
    else bli_info_get_default_nr cfg dt
  let b_alg := bli_align_dim_to_mult b_alg mnr
  let b_max := bli_align_dim_to_mult b_max mnr
  let dim_left_now := dim - i
  if dim_left_now ≤ b_max then dim_left_now else b_alg

/-- Backward selector, `bli_trmm_determine_kc_b` (lines 86-151). -/
def bli_trmm_determine_kc_b (cfg : reg_blksz_t) (i dim : Int) (a b : obj_t)
    (bsize : blksz_t) : Int :=
  let _unused := b
  let dt := bli_obj_execution_datatype a
  let b_alg := bli_blksz_for_type dt bsize
  let b_max := bli_blksz_max_for_type dt bsize
  let mnr :=
    if bli_obj_root_is_triangular a then bli_info_get_default_mr cfg dt
    else bli_info_get_default_nr cfg dt
  let b_alg := bli_align_dim_to_mult b_alg mnr
  let b_max := bli_align_dim_to_mult b_max mnr
  let dim_left_now := dim - i
  let dim_at_edge := dim_left_now.tmod b_alg
  if dim_at_edge = 0 then b_alg
  else if dim_left_now ≤ b_max then dim_left_now
  else if dim_at_edge ≤ b_max - b_alg then b_alg + dim_at_edge
  else dim_at_edge

/-! ## Names for the quantities the contract speaks about -/

/-- The alignment factor both selectors compute at lines 61-62 and 111-112:
`MR` of the execution datatype of `a` when the root of `a` is triangular,
`NR` of that datatype otherwise. -/
def kc_mnr (cfg : reg_blksz_t) (a : obj_t) : Int :=
  if bli_obj_root_is_triangular a then
    bli_info_get_default_mr cfg (bli_obj_execution_datatype a)
  else bli_info_get_default_nr cfg (bli_obj_execution_datatype a)

/-- The aligned default `b_alg` after lines 63 and 113. -/
def kc_b_alg (cfg : reg_blksz_t) (a : obj_t) (bsize : blksz_t) : Int :=
  bli_align_dim_to_mult (bli_blksz_for_type (bli_obj_execution_datatype a) bsize)
    (kc_mnr cfg a)

/-- The aligned maximum `b_max` after lines 64 and 114. -/
def kc_b_max (cfg : reg_blksz_t) (a : obj_t) (bsize : blksz_t) : Int :=
  bli_align_dim_to_mult (bli_blksz_max_for_type (bli_obj_execution_datatype a) bsize)
    (kc_mnr cfg a)

/-- Lines 68-82: the forward choice, given the aligned `b_alg` and `b_max`. -/
def kc_f_choice (b_alg b_max i dim : Int) : Int :=
  let dim_left_now := dim - i
  if dim_left_now ≤ b_max then dim_left_now else b_alg

/-- Lines 118-150: the backward choice, given the aligned `b_alg` and `b_max`. -/
def kc_b_choice (b_alg b_max i dim : Int) : Int :=
  let dim_left_now := dim - i
  let dim_at_edge := dim_left_now.tmod b_alg
  if dim_at_edge = 0 then b_alg
  else if dim_left_now ≤ b_max then dim_left_now
  else if dim_at_edge ≤ b_max - b_alg then b_alg + dim_at_edge
  else dim_at_edge

/-- The loop the selectors are written for: while `i < dim`, ask the selector
for a chunk and advance `i` by it.  The result is the offset at which the loop
stops together with the chunks in the order they were returned, or `none` when
`fuel` calls were not enough. -/
def traverse (sel : Int → Int → Int) (dim : Int) : Nat → Int →
    Option (Int × List Int)
  | 0, i => if i < dim then none else some (i, [])
  | fuel + 1, i =>
    if i < dim then
      (traverse sel dim fuel (i + sel i dim)).map
        (fun r => (r.1, sel i dim :: r.2))
    else some (i, [])

/-- The same loop, recording every call: the offset `i` at which the selector
was asked and the chunk it returned, in order; `none` when `fuel` calls were
not enough. -/
def calls (sel : Int → Int → Int) (dim : Int) : Nat → Int → Option (List (Int × Int))
  | 0, i => if i < dim then none else some []
  | fuel + 1, i =>
    if i < dim then
      (calls sel dim fuel (i + sel i dim)).map (fun r => (i, sel i dim) :: r)
    else some []

/-! ## Sample inputs -/

/-- A policy with the same default and maximum for every datatype. -/
def constPolicy (v m : Int) : blksz_t := ⟨fun _ => v, fun _ => m⟩

/-- A register-tile table with the same `MR` and `NR` for every datatype. -/
def constTiles (mr nr : Int) : reg_blksz_t := ⟨fun _ => mr, fun _ => nr⟩

/-- A triangular operand in double precision. -/
def triA : obj_t := ⟨num_t.BLIS_DOUBLE, true⟩

/-- A general (non-triangular) operand in double precision. -/
def genA : obj_t := ⟨num_t.BLIS_DOUBLE, false⟩

/-! ## Arithmetic of the alignment step -/

theorem align_eq_ediv {v mnr : Int} (hv : 0 ≤ v) (hm : 0 < mnr) :
    bli_align_dim_to_mult v mnr = ((v + mnr - 1) / mnr) * mnr := by
  unfold bli_align_dim_to_mult
  rw [Int.tdiv_eq_ediv (by omega) (by omega)]

theorem align_ge {v mnr : Int} (hv : 0 ≤ v) (hm : 0 < mnr) :
    v ≤ bli_align_dim_to_mult v mnr := by
  rw [align_eq_ediv hv hm]
  have h1 := Int.emod_add_ediv (v + mnr - 1) mnr
  have h2 := Int.emod_lt_of_pos (v + mnr - 1) hm
  have h3 : mnr * ((v + mnr - 1) / mnr) = (v + mnr - 1) / mnr * mnr := mul_comm _ _
  omega

theorem align_lt {v mnr : Int} (hv : 0 ≤ v) (hm : 0 < mnr) :
    bli_align_dim_to_mult v mnr < v + mnr := by
  rw [align_eq_ediv hv hm]
  have h1 := Int.emod_add_ediv (v + mnr - 1) mnr
  have h2 := Int.emod_nonneg (v + mnr - 1) (ne_of_gt hm)
  have h3 : mnr * ((v + mnr - 1) / mnr) = (v + mnr - 1) / mnr * mnr := mul_comm _ _
  omega

theorem align_dvd (v mnr : Int) : mnr ∣ bli_align_dim_to_mult v mnr :=
  Dvd.intro_left _ rfl

theorem align_mono {v w mnr : Int} (hv : 0 ≤ v) (hvw : v ≤ w) (hm : 0 < mnr) :
    bli_align_dim_to_mult v mnr ≤ bli_align_dim_to_mult w mnr := by
  rw [align_eq_ediv hv hm, align_eq_ediv (le_trans hv hvw) hm]
  exact mul_le_mul_of_nonneg_right
    (Int.ediv_le_ediv hm (by omega)) (le_of_lt hm)

theorem align_pos {v mnr : Int} (hv : 0 < v) (hm : 0 < mnr) :
    0 < bli_align_dim_to_mult v mnr :=
  lt_of_lt_of_le hv (align_ge (le_of_lt hv) hm)

theorem align_of_dvd {v mnr : Int} (hv : 0 ≤ v) (hm : 0 < mnr) (hd : mnr ∣ v) :
    bli_align_dim_to_mult v mnr = v := by
  have h1 := align_ge hv hm
  have h2 := align_lt hv hm
  have h3 : mnr ∣ bli_align_dim_to_mult v mnr - v := Int.dvd_sub (align_dvd v mnr) hd
  by_contra hne
  have h4 : 0 < bli_align_dim_to_mult v mnr - v := by omega
  have h5 := Int.le_of_dvd h4 h3
  omega

/-- C division by a positive divisor is monotone in the dividend, whatever the
signs. -/
theorem tdiv_mono {x y m : Int} (hxy : x ≤ y) (hm : 0 < m) : x.tdiv m ≤ y.tdiv m := by
  have hneg : ∀ z : Int, z < 0 → z.tdiv m = -((-z) / m) := by
    intro z hz
    have h1 : z = -(-z) := by omega
    rw [h1, Int.neg_tdiv, Int.tdiv_eq_ediv (by omega) (le_of_lt hm)]
    simp
  by_cases hx : 0 ≤ x
  · rw [Int.tdiv_eq_ediv hx (le_of_lt hm), Int.tdiv_eq_ediv (le_trans hx hxy) (le_of_lt hm)]
    exact Int.ediv_le_ediv hm hxy
  · have hx2 : x < 0 := not_le.mp hx
    have hxd : 0 ≤ (-x) / m := Int.ediv_nonneg (by omega) (le_of_lt hm)
    by_cases hy : 0 ≤ y
    · have hyd : 0 ≤ y.tdiv m := Int.tdiv_nonneg hy (le_of_lt hm)
      rw [hneg x hx2]
      omega
    · have hy2 : y < 0 := not_le.mp hy
      have hle : (-y) / m ≤ (-x) / m := Int.ediv_le_ediv hm (by omega)
      rw [hneg x hx2, hneg y hy2]
      omega

/-- Alignment to a positive multiple is monotone, whatever the signs. -/
theorem align_mono_int {v w mnr : Int} (hvw : v ≤ w) (hm : 0 < mnr) :
    bli_align_dim_to_mult v mnr ≤ bli_align_dim_to_mult w mnr := by
  unfold bli_align_dim_to_mult
  exact mul_le_mul_of_nonneg_right (tdiv_mono (by omega) hm) (le_of_lt hm)

/-! ## Arithmetic of the remainder `dim_at_edge` -/

theorem tmod_bounds {r A : Int} (hr : 0 ≤ r) (hA : 0 < A) :
    0 ≤ r.tmod A ∧ r.tmod A < A :=
  ⟨Int.tmod_nonneg A hr, Int.tmod_lt_of_pos r hA⟩

theorem le_of_tmod_eq_zero {r A : Int} (hr : 0 < r) (h : r.tmod A = 0) : A ≤ r :=
  Int.le_of_dvd hr (Int.dvd_of_tmod_eq_zero h)

theorem tmod_le_self {r A : Int} (hr : 0 ≤ r) (hA : 0 < A) : r.tmod A ≤ r := by
  have h1 := Int.tmod_add_tdiv r A
  have h2 : 0 ≤ A * r.tdiv A := mul_nonneg (le_of_lt hA) (Int.tdiv_nonneg hr (le_of_lt hA))
  omega

/-! ## The selectors over the aligned quantities -/

theorem kc_f_eq (cfg : reg_blksz_t) (i dim : Int) (a b : obj_t) (bsize : blksz_t) :
    bli_trmm_determine_kc_f cfg i dim a b bsize =
      if dim - i ≤ kc_b_max cfg a bsize then dim - i else kc_b_alg cfg a bsize := rfl

theorem kc_b_eq (cfg : reg_blksz_t) (i dim : Int) (a b : obj_t) (bsize : blksz_t) :
    bli_trmm_determine_kc_b cfg i dim a b bsize =
      if (dim - i).tmod (kc_b_alg cfg a bsize) = 0 then kc_b_alg cfg a bsize
      else if dim - i ≤ kc_b_max cfg a bsize then dim - i
      else if (dim - i).tmod (kc_b_alg cfg a bsize)
          ≤ kc_b_max cfg a bsize - kc_b_alg cfg a bsize then
        kc_b_alg cfg a bsize + (dim - i).tmod (kc_b_alg cfg a bsize)
      else (dim - i).tmod (kc_b_alg cfg a bsize) := rfl

theorem kc_b_alg_pos {cfg : reg_blksz_t} {a : obj_t} {bsize : blksz_t}
    (hm : 0 < kc_mnr cfg a)
    (hv : 0 < bli_blksz_for_type (bli_obj_execution_datatype a) bsize) :
    0 < kc_b_alg cfg a bsize :=
  align_pos hv hm

theorem kc_b_alg_le_max {cfg : reg_blksz_t} {a : obj_t} {bsize : blksz_t}
    (hm : 0 < kc_mnr cfg a)
    (hv : 0 < bli_blksz_for_type (bli_obj_execution_datatype a) bsize)
    (hvm : bli_blksz_for_type (bli_obj_execution_datatype a) bsize
      ≤ bli_blksz_max_for_type (bli_obj_execution_datatype a) bsize) :
    kc_b_alg cfg a bsize ≤ kc_b_max cfg a bsize :=
  align_mono (le_of_lt hv) hvm hm

/-- One forward step: the chunk is positive, stays within what is left and within
the aligned maximum. -/
theorem kc_f_step {cfg : reg_blksz_t} {a : obj_t} {bsize : blksz_t} (i dim : Int) (b : obj_t)
    (hi : i < dim) (hA : 0 < kc_b_alg cfg a bsize)
    (hAM : kc_b_alg cfg a bsize ≤ kc_b_max cfg a bsize) :
    0 < bli_trmm_determine_kc_f cfg i dim a b bsize ∧
    bli_trmm_determine_kc_f cfg i dim a b bsize ≤ dim - i ∧
    bli_trmm_determine_kc_f cfg i dim a b bsize ≤ kc_b_max cfg a bsize := by
  rw [kc_f_eq]
  split_ifs with h <;> omega

/-- One backward step: the chunk is positive, stays within what is left and
within the aligned maximum. -/
theorem kc_b_step {cfg : reg_blksz_t} {a : obj_t} {bsize : blksz_t} (i dim : Int) (b : obj_t)
    (hi : i < dim) (hA : 0 < kc_b_alg cfg a bsize)
    (hAM : kc_b_alg cfg a bsize ≤ kc_b_max cfg a bsize) :
    0 < bli_trmm_determine_kc_b cfg i dim a b bsize ∧
    bli_trmm_determine_kc_b cfg i dim a b bsize ≤ dim - i ∧
    bli_trmm_determine_kc_b cfg i dim a b bsize ≤ kc_b_max cfg a bsize := by
  have hr : 0 < dim - i := by omega
  obtain ⟨e0, e1⟩ := tmod_bounds (le_of_lt hr) hA
  have e2 := tmod_le_self (le_of_lt hr) hA
  rw [kc_b_eq]
  split_ifs with h0 h1 h2
  · have := le_of_tmod_eq_zero hr h0
    omega
  · omega
  · omega
  · omega

/-! ## The traversal -/

/-- A selector that always returns a positive chunk no larger than what is left
drives the loop from any offset `i ≤ dim` to `dim` exactly, in at most
`dim - i` calls, and the chunks add up to `dim - i`. -/
theorem traverse_covers (sel : Int → Int → Int) (dim : Int)
    (hsel : ∀ i, 0 ≤ i → i < dim → 0 < sel i dim ∧ sel i dim ≤ dim - i) :
    ∀ (fuel : Nat) (i : Int), 0 ≤ i → i ≤ dim → (dim - i).toNat ≤ fuel →
      ∃ cs, traverse sel dim fuel i = some (dim, cs) ∧ cs.sum = dim - i ∧
        (cs.length : Int) ≤ dim - i ∧ ∀ c ∈ cs, 0 < c := by
  intro fuel
  induction fuel with
  | zero =>
    intro i _ hid hf
    have hEq : i = dim := by omega
    subst hEq
    exact ⟨[], by simp [traverse], by simp, by simp, by simp⟩
  | succ n ih =>
    intro i hi0 hid hf
    by_cases hlt : i < dim
    · obtain ⟨hpos, hle⟩ := hsel i hi0 hlt
      obtain ⟨cs, hrun, hsum, hlen, hall⟩ :=
        ih (i + sel i dim) (by omega) (by omega) (by omega)
      refine ⟨sel i dim :: cs, ?_, ?_, ?_, ?_⟩
      · simp [traverse, hlt, hrun]
      · rw [List.sum_cons, hsum]
        omega
      · simp only [List.length_cons, Nat.cast_add, Nat.cast_one]
        omega
      · intro c hc
        rcases List.mem_cons.mp hc with h | h
        · rw [h]; exact hpos
        · exact hall c h
    · have hEq : i = dim := by omega
      subst hEq
      exact ⟨[], by simp [traverse], by simp, by simp, by simp⟩

theorem traverse_of_ge (sel : Int → Int → Int) {dim i : Int} (h : dim ≤ i) (fuel : Nat) :
    traverse sel dim fuel i = some (i, []) := by
  cases fuel <;> simp [traverse, not_lt.mpr h]

theorem traverse_succ_of_lt (sel : Int → Int → Int) {dim i : Int} (h : i < dim)
    (fuel : Nat) :
    traverse sel dim (fuel + 1) i =
      (traverse sel dim fuel (i + sel i dim)).map (fun r => (r.1, sel i dim :: r.2)) := by
  simp [traverse, h]

/-- More fuel does not change the result of a loop that has finished. -/
theorem traverse_mono (sel : Int → Int → Int) (dim : Int) :
    ∀ (n : Nat) (i : Int) (r : Int × List Int), traverse sel dim n i = some r →
      ∀ m : Nat, traverse sel dim (n + m) i = some r := by
  intro n
  induction n with
  | zero =>
    intro i r h m
    by_cases hlt : i < dim
    · simp [traverse, hlt] at h
    · simp only [traverse, hlt, if_false] at h
      rw [traverse_of_ge sel (not_lt.mp hlt)]
      exact h
  | succ n ih =>
    intro i r h m
    by_cases hlt : i < dim
    · rw [traverse_succ_of_lt sel hlt] at h
      have hm : n + 1 + m = (n + m) + 1 := by omega
      rw [hm, traverse_succ_of_lt sel hlt]
      cases hrec : traverse sel dim n (i + sel i dim) with
      | none => simp [hrec] at h
      | some r2 =>
        rw [ih _ r2 hrec m]
        rw [hrec] at h
        exact h
    · rw [traverse_of_ge sel (not_lt.mp hlt)] at h
      rw [traverse_of_ge sel (not_lt.mp hlt)]
      exact h

theorem traverse_mono_le (sel : Int → Int → Int) (dim : Int) {n fuel : Nat} {i : Int}
    {r : Int × List Int} (h : traverse sel dim n i = some r) (hle : n ≤ fuel) :
    traverse sel dim fuel i = some r := by
  obtain ⟨m, rfl⟩ := Nat.exists_eq_add_of_le hle
  exact traverse_mono sel dim n i r h m

/-- A positive multiple `A * q` of a positive `A` has a positive factor `q`. -/
theorem factor_pos {A q : Int} (hA : 0 < A) (h : 0 < A * q) : 0 < q := by
  by_contra hq
  have h1 : A * q ≤ 0 := mul_nonpos_of_nonneg_of_nonpos (le_of_lt hA) (not_lt.mp hq)
  omega

/-- Backward sweep over an extent that is `k` times `b_alg`: exactly `k` chunks
of `b_alg`. -/
theorem traverse_b_even (cfg : reg_blksz_t) (a b : obj_t) (bsize : blksz_t) (dim : Int) :
    ∀ (k : Nat) (i : Int), dim - i = k * kc_b_alg cfg a bsize → 0 < kc_b_alg cfg a bsize →
      traverse (fun i d => bli_trmm_determine_kc_b cfg i d a b bsize) dim k i
        = some (dim, List.replicate k (kc_b_alg cfg a bsize)) := by
  intro k
  induction k with
  | zero =>
    intro i h _
    have hEq : i = dim := by simp at h; omega
    subst hEq
    simp [traverse]
  | succ k ih =>
    intro i h hA
    have hk : ((k + 1 : Nat) : Int) * kc_b_alg cfg a bsize
        = k * kc_b_alg cfg a bsize + kc_b_alg cfg a bsize := by
      push_cast; ring
    have hk0 : 0 ≤ (k : Int) * kc_b_alg cfg a bsize :=
      mul_nonneg (Int.ofNat_nonneg k) (le_of_lt hA)
    have hlt : i < dim := by omega
    have hsel : bli_trmm_determine_kc_b cfg i dim a b bsize = kc_b_alg cfg a bsize := by
      rw [kc_b_eq, h, Int.mul_tmod_left, if_pos rfl]
    rw [traverse_succ_of_lt _ hlt]
    simp only [hsel]
    rw [ih (i + kc_b_alg cfg a bsize) (by omega) hA]
    simp [List.replicate_succ]

/-- Forward sweep over an extent `k * b_alg + r` whose last part `r` fits under
`b_max` while `r + b_alg` does not: `k` chunks of `b_alg`, then `r`. -/
theorem traverse_f_closed (cfg : reg_blksz_t) (a b : obj_t) (bsize : blksz_t) (dim : Int)
    (hA : 0 < kc_b_alg cfg a bsize) :
    ∀ (k : Nat) (i r : Int), dim - i = k * kc_b_alg cfg a bsize + r → 0 < r →
      r ≤ kc_b_max cfg a bsize → (k ≠ 0 → kc_b_max cfg a bsize < r + kc_b_alg cfg a bsize) →
      traverse (fun i d => bli_trmm_determine_kc_f cfg i d a b bsize) dim (k + 1) i
        = some (dim, List.replicate k (kc_b_alg cfg a bsize) ++ [r]) := by
  intro k
  induction k with
  | zero =>
    intro i r h hr hrM _
    have hdi : dim - i = r := by simpa using h
    have hlt : i < dim := by omega
    have hsel : bli_trmm_determine_kc_f cfg i dim a b bsize = r := by
      rw [kc_f_eq, hdi, if_pos hrM]
    rw [traverse_succ_of_lt _ hlt]
    simp only [hsel]
    have hid : i + r = dim := by omega
    rw [hid, traverse_of_ge _ (le_refl dim)]
    simp
  | succ k ih =>
    intro i r h hr hrM hbig
    have hk : ((k + 1 : Nat) : Int) * kc_b_alg cfg a bsize
        = k * kc_b_alg cfg a bsize + kc_b_alg cfg a bsize := by
      push_cast; ring
    have hk0 : 0 ≤ (k : Int) * kc_b_alg cfg a bsize :=
      mul_nonneg (Int.ofNat_nonneg k) (le_of_lt hA)
    have hb := hbig (Nat.succ_ne_zero k)
    have hlt : i < dim := by omega
    have hsel : bli_trmm_determine_kc_f cfg i dim a b bsize = kc_b_alg cfg a bsize := by
      rw [kc_f_eq, if_neg (by omega)]
    rw [traverse_succ_of_lt _ hlt]
    simp only [hsel]
    rw [ih (i + kc_b_alg cfg a bsize) r (by omega) hr hrM (fun _ => hb)]
    simp [List.replicate_succ]

theorem calls_of_ge (sel : Int → Int → Int) {dim i : Int} (h : dim ≤ i) (fuel : Nat) :
    calls sel dim fuel i = some [] := by
  cases fuel <;> simp [calls, not_lt.mpr h]

theorem calls_succ_of_lt (sel : Int → Int → Int) {dim i : Int} (h : i < dim) (fuel : Nat) :
    calls sel dim (fuel + 1) i =
      (calls sel dim fuel (i + sel i dim)).map (fun r => (i, sel i dim) :: r) := by
  simp [calls, h]

/-- Forward sweep from an offset that is a multiple of `b_alg`: every call is
made at a multiple of `b_alg`, and every chunk but the last is `b_alg`. -/
theorem calls_f_aligned (cfg : reg_blksz_t) (a b : obj_t) (bsize : blksz_t) (dim : Int)
    (hA : 0 < kc_b_alg cfg a bsize) (hAM : kc_b_alg cfg a bsize ≤ kc_b_max cfg a bsize) :
    ∀ (fuel : Nat) (i : Int), i ≤ dim → kc_b_alg cfg a bsize ∣ i →
      (dim - i).toNat ≤ fuel →
      ∃ tr, calls (fun i d => bli_trmm_determine_kc_f cfg i d a b bsize) dim fuel i = some tr ∧
        traverse (fun i d => bli_trmm_determine_kc_f cfg i d a b bsize) dim fuel i
          = some (dim, tr.map Prod.snd) ∧
        (∀ p ∈ tr, kc_b_alg cfg a bsize ∣ p.1) ∧
        (∀ p ∈ tr.dropLast, p.2 = kc_b_alg cfg a bsize) := by
  intro fuel
  induction fuel with
  | zero =>
    intro i hid _ hf
    have hEq : i = dim := by omega
    subst hEq
    exact ⟨[], by simp [calls], by simp [traverse], by simp, by simp⟩
  | succ n ih =>
    intro i hid hdvd hf
    by_cases hlt : i < dim
    · by_cases hfin : dim - i ≤ kc_b_max cfg a bsize
      · have hsel : bli_trmm_determine_kc_f cfg i dim a b bsize = dim - i := by
          rw [kc_f_eq, if_pos hfin]
        have hnext : i + (dim - i) = dim := by omega
        refine ⟨[(i, dim - i)], ?_, ?_, ?_, ?_⟩
        · rw [calls_succ_of_lt _ hlt]
          simp only [hsel, hnext]
          rw [calls_of_ge _ (le_refl dim)]
          rfl
        · rw [traverse_succ_of_lt _ hlt]
          simp only [hsel, hnext]
          rw [traverse_of_ge _ (le_refl dim)]
          rfl
        · intro p hp
          rw [List.mem_singleton] at hp
          rw [hp]
          exact hdvd
        · intro p hp
          simp at hp
      · have hsel : bli_trmm_determine_kc_f cfg i dim a b bsize = kc_b_alg cfg a bsize := by
          rw [kc_f_eq, if_neg hfin]
        obtain ⟨tr, h1, h2, h3, h4⟩ :=
          ih (i + kc_b_alg cfg a bsize) (by omega) (Int.dvd_add hdvd (dvd_refl _)) (by omega)
        refine ⟨(i, kc_b_alg cfg a bsize) :: tr, ?_, ?_, ?_, ?_⟩
        · rw [calls_succ_of_lt _ hlt]
          simp only [hsel]
          rw [h1]
          rfl
        · rw [traverse_succ_of_lt _ hlt]
          simp only [hsel]
          rw [h2]
          rfl
        · intro p hp
          rcases List.mem_cons.mp hp with h | h
          · rw [h]; exact hdvd
          · exact h3 p h
        · intro p hp
          cases tr with
          | nil => simp at hp
          | cons x xs =>
            rw [List.dropLast_cons₂] at hp
            rcases List.mem_cons.mp hp with h | h
            · rw [h]
            · exact h4 p h
    · have hEq : i = dim := by omega
      subst hEq
      exact ⟨[], by simp [calls], by simp [traverse], by simp, by simp⟩

theorem tmod_of_decomp {A e : Int} (k : Nat) (hA : 0 < A) (he0 : 0 ≤ e) (heA : e < A) :
    ((k : Int) * A + e).tmod A = e := by
  have hk0 : 0 ≤ (k : Int) * A := mul_nonneg (Int.ofNat_nonneg k) (le_of_lt hA)
  rw [Int.tmod_eq_emod (by omega) (le_of_lt hA), add_comm, Int.add_mul_emod_self,
    Int.emod_eq_of_lt he0 heA]

/-- Backward sweep whose first chunk `c` leaves `k` times `b_alg`: the chunks are
`c` followed by `k` chunks of `b_alg`. -/
theorem traverse_b_cons (cfg : reg_blksz_t) (a b : obj_t) (bsize : blksz_t) (dim : Int)
    (hA : 0 < kc_b_alg cfg a bsize) (k : Nat) (i c : Int) (hlt : i < dim)
    (hc : bli_trmm_determine_kc_b cfg i dim a b bsize = c)
    (hrest : dim - (i + c) = k * kc_b_alg cfg a bsize) :
    traverse (fun i d => bli_trmm_determine_kc_b cfg i d a b bsize) dim (k + 1) i
      = some (dim, c :: List.replicate k (kc_b_alg cfg a bsize)) := by
  rw [traverse_succ_of_lt _ hlt]
  simp only [hc]
  rw [traverse_b_even cfg a b bsize dim k (i + c) hrest hA]
  rfl

/-- With `b_max < 2 * b_alg`, for `dim = k * b_alg + e > 0` and `0 ≤ e < b_alg` both
sweeps finish, and the backward chunks are the forward chunks reversed. -/
theorem mirror_core (cfg : reg_blksz_t) (a b : obj_t) (bsize : blksz_t) (dim : Int)
    (hA : 0 < kc_b_alg cfg a bsize) (hAM : kc_b_alg cfg a bsize ≤ kc_b_max cfg a bsize)
    (hM2 : kc_b_max cfg a bsize < 2 * kc_b_alg cfg a bsize)
    (k : Nat) (e : Int) (he0 : 0 ≤ e) (heA : e < kc_b_alg cfg a bsize)
    (hdim : dim = k * kc_b_alg cfg a bsize + e) (hpos : 0 < dim) :
    ∃ (nf nb : Nat) (L : List Int),
      traverse (fun i d => bli_trmm_determine_kc_f cfg i d a b bsize) dim nf 0
        = some (dim, L) ∧
      traverse (fun i d => bli_trmm_determine_kc_b cfg i d a b bsize) dim nb 0
        = some (dim, L.reverse) := by
  have hedge : (dim - 0).tmod (kc_b_alg cfg a bsize) = e := by
    rw [sub_zero, hdim]
    exact tmod_of_decomp k hA he0 heA
  cases k with
  | zero =>
    have hd : dim = e := by simpa using hdim
    have hne : e ≠ 0 := by omega
    refine ⟨1, 1, [e], ?_, ?_⟩
    · exact traverse_f_closed cfg a b bsize dim hA 0 0 e (by simp; omega) (by omega)
        (by omega) (fun h => absurd rfl h)
    · have hc : bli_trmm_determine_kc_b cfg 0 dim a b bsize = e := by
        rw [kc_b_eq, hedge, if_neg hne, if_pos (by omega)]
        omega
      exact traverse_b_cons cfg a b bsize dim hA 0 0 e hpos hc (by simp; omega)
  | succ k =>
    have hk : ((k + 1 : Nat) : Int) * kc_b_alg cfg a bsize
        = k * kc_b_alg cfg a bsize + kc_b_alg cfg a bsize := by
      push_cast; ring
    have hk0 : 0 ≤ (k : Int) * kc_b_alg cfg a bsize :=
      mul_nonneg (Int.ofNat_nonneg k) (le_of_lt hA)
    by_cases he : e = 0
    · refine ⟨k + 1, k + 1, List.replicate k (kc_b_alg cfg a bsize) ++ [kc_b_alg cfg a bsize],
        ?_, ?_⟩
      · exact traverse_f_closed cfg a b bsize dim hA k 0 (kc_b_alg cfg a bsize) (by omega) hA
          hAM (fun _ => by omega)
      · rw [traverse_b_even cfg a b bsize dim (k + 1) 0 (by omega) hA]
        simp [List.replicate_succ]
    · by_cases hsl : e ≤ kc_b_max cfg a bsize - kc_b_alg cfg a bsize
      · have hkA : (k : Int) * kc_b_alg cfg a bsize = 0
            ∨ kc_b_alg cfg a bsize ≤ k * kc_b_alg cfg a bsize := by
          cases k with
          | zero => left; simp
          | succ j =>
            right
            have hj0 : 0 ≤ (j : Int) * kc_b_alg cfg a bsize :=
              mul_nonneg (Int.ofNat_nonneg j) (le_of_lt hA)
            have hj : ((j + 1 : Nat) : Int) * kc_b_alg cfg a bsize
                = j * kc_b_alg cfg a bsize + kc_b_alg cfg a bsize := by
              push_cast; ring
            omega
        refine ⟨k + 1, k + 1,
          List.replicate k (kc_b_alg cfg a bsize) ++ [kc_b_alg cfg a bsize + e], ?_, ?_⟩
        · exact traverse_f_closed cfg a b bsize dim hA k 0 (kc_b_alg cfg a bsize + e)
            (by omega) (by omega) (by omega) (fun _ => by omega)
        · have hc : bli_trmm_determine_kc_b cfg 0 dim a b bsize
              = kc_b_alg cfg a bsize + e := by
            rw [kc_b_eq, hedge, if_neg he]
            split_ifs with h1
            · omega
            · rfl
          rw [traverse_b_cons cfg a b bsize dim hA k 0 (kc_b_alg cfg a bsize + e) hpos hc
            (by omega)]
          simp
      · refine ⟨k + 2, k + 2, List.replicate (k + 1) (kc_b_alg cfg a bsize) ++ [e], ?_, ?_⟩
        · exact traverse_f_closed cfg a b bsize dim hA (k + 1) 0 e (by omega) (by omega)
            (by omega) (fun _ => by omega)
        · have hc : bli_trmm_determine_kc_b cfg 0 dim a b bsize = e := by
            rw [kc_b_eq, hedge, if_neg he, if_neg (by omega), if_neg hsl]
          rw [traverse_b_cons cfg a b bsize dim hA (k + 1) 0 e hpos hc (by omega)]
          simp

/-- Forward sweep from a multiple `i` of `b_alg` with `dim - i + b_alg > b_max`:
the last chunk `r` lies in `(b_max - b_alg, b_max]` and `dim - r` is a multiple
of `b_alg`. -/
theorem traverse_f_last (cfg : reg_blksz_t) (a b : obj_t) (bsize : blksz_t) (dim : Int)
    (hA : 0 < kc_b_alg cfg a bsize) (hAM : kc_b_alg cfg a bsize ≤ kc_b_max cfg a bsize) :
    ∀ (fuel : Nat) (i : Int), i < dim → kc_b_alg cfg a bsize ∣ i →
      kc_b_max cfg a bsize < dim - i + kc_b_alg cfg a bsize → (dim - i).toNat ≤ fuel →
      ∃ cs r, traverse (fun i d => bli_trmm_determine_kc_f cfg i d a b bsize) dim fuel i
          = some (dim, cs) ∧ cs.getLast? = some r ∧
        kc_b_max cfg a bsize - kc_b_alg cfg a bsize < r ∧ r ≤ kc_b_max cfg a bsize ∧
        kc_b_alg cfg a bsize ∣ dim - r := by
  intro fuel
  induction fuel with
  | zero =>
    intro i hlt _ _ hf
    omega
  | succ n ih =>
    intro i hlt hdvd hbig hf
    by_cases hfin : dim - i ≤ kc_b_max cfg a bsize
    · have hsel : bli_trmm_determine_kc_f cfg i dim a b bsize = dim - i := by
        rw [kc_f_eq, if_pos hfin]
      have hnext : i + (dim - i) = dim := by omega
      have hback : dim - (dim - i) = i := by omega
      refine ⟨[dim - i], dim - i, ?_, rfl, by omega, hfin, by rw [hback]; exact hdvd⟩
      rw [traverse_succ_of_lt _ hlt]
      simp only [hsel, hnext]
      rw [traverse_of_ge _ (le_refl dim)]
      rfl
    · have hsel : bli_trmm_determine_kc_f cfg i dim a b bsize = kc_b_alg cfg a bsize := by
        rw [kc_f_eq, if_neg hfin]
      obtain ⟨cs, r, h1, h2, h3, h4, h5⟩ :=
        ih (i + kc_b_alg cfg a bsize) (by omega) (Int.dvd_add hdvd (dvd_refl _)) (by omega)
          (by omega)
      refine ⟨kc_b_alg cfg a bsize :: cs, r, ?_, ?_, h3, h4, h5⟩
      · rw [traverse_succ_of_lt _ hlt]
        simp only [hsel]
        rw [h1]
        rfl
      · rw [List.getLast?_cons, h2]
        rfl

/-! ## Theorems of the contract -/

/-- C9: for every blocksize `v ≥ 0` and every `mnr > 0`, the aligned value is a
multiple of `mnr`, is at least `v`, and is less than `v + mnr`. -/
theorem align_spec (v mnr : Int) (hv : 0 ≤ v) (hm : 0 < mnr) :
    mnr ∣ bli_align_dim_to_mult v mnr ∧
    (bli_align_dim_to_mult v mnr).tmod mnr = 0 ∧
    v ≤ bli_align_dim_to_mult v mnr ∧
    bli_align_dim_to_mult v mnr < v + mnr :=
  ⟨align_dvd v mnr, Int.tmod_eq_zero_of_dvd (align_dvd v mnr), align_ge hv hm, align_lt hv hm⟩

theorem align_spec_witness :
    (0 : Int) ≤ 10 ∧ (0 : Int) < 4 ∧ bli_align_dim_to_mult 10 4 = 12 ∧
    ((4 : Int) ∣ bli_align_dim_to_mult 10 4 ∧
      (bli_align_dim_to_mult 10 4).tmod 4 = 0 ∧
      (10 : Int) ≤ bli_align_dim_to_mult 10 4 ∧
      bli_align_dim_to_mult 10 4 < 10 + 4) :=
  ⟨by decide, by decide, by decide, align_spec 10 4 (by decide) (by decide)⟩

/-- C1: forward coverage.  For `dim ≥ 0`, an alignment factor `mnr > 0` and a
policy with `0 < default ≤ maximum`, the loop that starts at `i = 0` and advances
`i` by each value returned by `bli_trmm_determine_kc_f` stops after at most
`dim` calls at `i = dim` exactly, and the returned chunks add up to `dim`. -/
theorem kc_f_coverage (cfg : reg_blksz_t) (a b : obj_t) (bsize : blksz_t) (dim : Int)
    (hdim : 0 ≤ dim) (hm : 0 < kc_mnr cfg a)
    (hv : 0 < bli_blksz_for_type (bli_obj_execution_datatype a) bsize)
    (hvm : bli_blksz_for_type (bli_obj_execution_datatype a) bsize
      ≤ bli_blksz_max_for_type (bli_obj_execution_datatype a) bsize)
    (fuel : Nat) (hfuel : dim.toNat ≤ fuel) :
    ∃ cs, traverse (fun i d => bli_trmm_determine_kc_f cfg i d a b bsize) dim fuel 0
        = some (dim, cs) ∧ cs.sum = dim ∧ (cs.length : Int) ≤ dim := by
  have hA := kc_b_alg_pos hm hv
  have hAM := kc_b_alg_le_max hm hv hvm
  obtain ⟨cs, h1, h2, h3, _⟩ :=
    traverse_covers (fun i d => bli_trmm_determine_kc_f cfg i d a b bsize) dim
      (fun i _ hlt => ⟨(kc_f_step i dim b hlt hA hAM).1, (kc_f_step i dim b hlt hA hAM).2.1⟩)
      fuel 0 (le_refl 0) hdim (by simpa using hfuel)
  exact ⟨cs, h1, by simpa using h2, by simpa using h3⟩

theorem kc_f_coverage_witness :
    traverse (fun i d => bli_trmm_determine_kc_f (constTiles 4 6) i d triA genA
        (constPolicy 7 10)) 30 30 0 = some (30, [8, 8, 8, 6]) ∧
    ∃ cs, traverse (fun i d => bli_trmm_determine_kc_f (constTiles 4 6) i d triA genA
        (constPolicy 7 10)) 30 30 0 = some (30, cs) ∧ cs.sum = 30 ∧
        (cs.length : Int) ≤ 30 :=
  ⟨by decide,
   kc_f_coverage (constTiles 4 6) triA genA (constPolicy 7 10) 30 (by decide) (by decide)
     (by decide) (by decide) 30 (by decide)⟩

/-- C2: backward coverage.  For `dim ≥ 0`, an alignment factor `mnr > 0` and a
policy with `0 < default ≤ maximum`, the loop that starts at `i = 0` and advances
`i` by each value returned by `bli_trmm_determine_kc_b` stops after at most
`dim` calls at `i = dim` exactly, and the returned chunks add up to `dim`. -/
theorem kc_b_coverage (cfg : reg_blksz_t) (a b : obj_t) (bsize : blksz_t) (dim : Int)
    (hdim : 0 ≤ dim) (hm : 0 < kc_mnr cfg a)
    (hv : 0 < bli_blksz_for_type (bli_obj_execution_datatype a) bsize)
    (hvm : bli_blksz_for_type (bli_obj_execution_datatype a) bsize
      ≤ bli_blksz_max_for_type (bli_obj_execution_datatype a) bsize)
    (fuel : Nat) (hfuel : dim.toNat ≤ fuel) :
    ∃ cs, traverse (fun i d => bli_trmm_determine_kc_b cfg i d a b bsize) dim fuel 0
        = some (dim, cs) ∧ cs.sum = dim ∧ (cs.length : Int) ≤ dim := by
  have hA := kc_b_alg_pos hm hv
  have hAM := kc_b_alg_le_max hm hv hvm
  obtain ⟨cs, h1, h2, h3, _⟩ :=
    traverse_covers (fun i d => bli_trmm_determine_kc_b cfg i d a b bsize) dim
      (fun i _ hlt => ⟨(kc_b_step i dim b hlt hA hAM).1, (kc_b_step i dim b hlt hA hAM).2.1⟩)
      fuel 0 (le_refl 0) hdim (by simpa using hfuel)
  exact ⟨cs, h1, by simpa using h2, by simpa using h3⟩

theorem kc_b_coverage_witness :
    traverse (fun i d => bli_trmm_determine_kc_b (constTiles 4 6) i d triA genA
        (constPolicy 7 10)) 30 30 0 = some (30, [6, 8, 8, 8]) ∧
    ∃ cs, traverse (fun i d => bli_trmm_determine_kc_b (constTiles 4 6) i d triA genA
        (constPolicy 7 10)) 30 30 0 = some (30, cs) ∧ cs.sum = 30 ∧
        (cs.length : Int) ≤ 30 :=
  ⟨by decide,
   kc_b_coverage (constTiles 4 6) triA genA (constPolicy 7 10) 30 (by decide) (by decide)
     (by decide) (by decide) 30 (by decide)⟩

/-- C3: bounded.  For `0 ≤ i < dim`, `mnr > 0` and `0 < default ≤ maximum`, the
value returned by `bli_trmm_determine_kc_f` and the value returned by
`bli_trmm_determine_kc_b` are each greater than `0` and at most the aligned
maximum (the policy maximum rounded up to a multiple of `mnr`). -/
theorem kc_bounded (cfg : reg_blksz_t) (i dim : Int) (a b : obj_t) (bsize : blksz_t)
    (hi0 : 0 ≤ i) (hi : i < dim) (hm : 0 < kc_mnr cfg a)
    (hv : 0 < bli_blksz_for_type (bli_obj_execution_datatype a) bsize)
    (hvm : bli_blksz_for_type (bli_obj_execution_datatype a) bsize
      ≤ bli_blksz_max_for_type (bli_obj_execution_datatype a) bsize) :
    (0 < bli_trmm_determine_kc_f cfg i dim a b bsize ∧
      bli_trmm_determine_kc_f cfg i dim a b bsize
        ≤ bli_align_dim_to_mult
            (bli_blksz_max_for_type (bli_obj_execution_datatype a) bsize) (kc_mnr cfg a)) ∧
    (0 < bli_trmm_determine_kc_b cfg i dim a b bsize ∧
      bli_trmm_determine_kc_b cfg i dim a b bsize
        ≤ bli_align_dim_to_mult
            (bli_blksz_max_for_type (bli_obj_execution_datatype a) bsize) (kc_mnr cfg a)) := by
  have _ := hi0
  have hA := kc_b_alg_pos hm hv
  have hAM := kc_b_alg_le_max hm hv hvm
  have hf := kc_f_step i dim b hi hA hAM
  have hb := kc_b_step i dim b hi hA hAM
  exact ⟨⟨hf.1, hf.2.2⟩, ⟨hb.1, hb.2.2⟩⟩

theorem kc_bounded_witness :
    (0 < bli_trmm_determine_kc_f (constTiles 4 6) 0 12 triA genA (constPolicy 7 10) ∧
      bli_trmm_determine_kc_f (constTiles 4 6) 0 12 triA genA (constPolicy 7 10)
        ≤ bli_align_dim_to_mult
            (bli_blksz_max_for_type (bli_obj_execution_datatype triA) (constPolicy 7 10))
            (kc_mnr (constTiles 4 6) triA)) ∧
    (0 < bli_trmm_determine_kc_b (constTiles 4 6) 0 12 triA genA (constPolicy 7 10) ∧
      bli_trmm_determine_kc_b (constTiles 4 6) 0 12 triA genA (constPolicy 7 10)
        ≤ bli_align_dim_to_mult
            (bli_blksz_max_for_type (bli_obj_execution_datatype triA) (constPolicy 7 10))
            (kc_mnr (constTiles 4 6) triA)) :=
  kc_bounded (constTiles 4 6) 0 12 triA genA (constPolicy 7 10) (by decide) (by decide)
    (by decide) (by decide) (by decide)

/-- C4 (as stated, refuted): with default `8`, maximum `10` and `mnr = 4` the
aligned maximum is `12`; at `i = 0`, `dim = 12` both selectors return `12`, which
exceeds the maximum `10` the policy holds. -/
theorem kc_exceeds_policy_max :
    (0 : Int) ≤ 0 ∧ (0 : Int) < 12 ∧ 0 < kc_mnr (constTiles 4 6) triA ∧
    0 < bli_blksz_for_type (bli_obj_execution_datatype triA) (constPolicy 8 10) ∧
    bli_blksz_for_type (bli_obj_execution_datatype triA) (constPolicy 8 10)
      ≤ bli_blksz_max_for_type (bli_obj_execution_datatype triA) (constPolicy 8 10) ∧
    ¬ (bli_trmm_determine_kc_f (constTiles 4 6) 0 12 triA genA (constPolicy 8 10)
      ≤ bli_blksz_max_for_type (bli_obj_execution_datatype triA) (constPolicy 8 10)) ∧
    ¬ (bli_trmm_determine_kc_b (constTiles 4 6) 0 12 triA genA (constPolicy 8 10)
      ≤ bli_blksz_max_for_type (bli_obj_execution_datatype triA) (constPolicy 8 10)) := by
  decide

/-- C4 (amended): for `0 ≤ i < dim`, `mnr > 0` and `0 < default ≤ maximum`, the
chunk returned by either selector does not exceed the policy maximum rounded up
to a multiple of `mnr`, hence is less than `maximum + mnr`; it does not exceed
the policy maximum itself whenever that maximum is a multiple of `mnr`. -/
theorem kc_le_policy_max_aligned (cfg : reg_blksz_t) (i dim : Int) (a b : obj_t)
    (bsize : blksz_t) (hi0 : 0 ≤ i) (hi : i < dim) (hm : 0 < kc_mnr cfg a)
    (hv : 0 < bli_blksz_for_type (bli_obj_execution_datatype a) bsize)
    (hvm : bli_blksz_for_type (bli_obj_execution_datatype a) bsize
      ≤ bli_blksz_max_for_type (bli_obj_execution_datatype a) bsize) :
    (bli_trmm_determine_kc_f cfg i dim a b bsize ≤ kc_b_max cfg a bsize ∧
      bli_trmm_determine_kc_b cfg i dim a b bsize ≤ kc_b_max cfg a bsize) ∧
    (bli_trmm_determine_kc_f cfg i dim a b bsize
        < bli_blksz_max_for_type (bli_obj_execution_datatype a) bsize + kc_mnr cfg a ∧
      bli_trmm_determine_kc_b cfg i dim a b bsize
        < bli_blksz_max_for_type (bli_obj_execution_datatype a) bsize + kc_mnr cfg a) ∧
    (kc_mnr cfg a ∣ bli_blksz_max_for_type (bli_obj_execution_datatype a) bsize →
      bli_trmm_determine_kc_f cfg i dim a b bsize
        ≤ bli_blksz_max_for_type (bli_obj_execution_datatype a) bsize ∧
      bli_trmm_determine_kc_b cfg i dim a b bsize
        ≤ bli_blksz_max_for_type (bli_obj_execution_datatype a) bsize) := by
  have _ := hi0
  have hA := kc_b_alg_pos hm hv
  have hAM := kc_b_alg_le_max hm hv hvm
  have hf := (kc_f_step i dim b hi hA hAM).2.2
  have hb := (kc_b_step i dim b hi hA hAM).2.2
  have hM0 : 0 ≤ bli_blksz_max_for_type (bli_obj_execution_datatype a) bsize := by omega
  have hlt : kc_b_max cfg a bsize
      < bli_blksz_max_for_type (bli_obj_execution_datatype a) bsize + kc_mnr cfg a :=
    align_lt hM0 hm
  refine ⟨⟨hf, hb⟩, ⟨by omega, by omega⟩, ?_⟩
  intro hd
  have hEq : kc_b_max cfg a bsize
      = bli_blksz_max_for_type (bli_obj_execution_datatype a) bsize :=
    align_of_dvd hM0 hm hd
  omega

theorem kc_le_policy_max_aligned_witness :
    (bli_trmm_determine_kc_f (constTiles 4 6) 0 12 triA genA (constPolicy 8 10)
        ≤ kc_b_max (constTiles 4 6) triA (constPolicy 8 10) ∧
      bli_trmm_determine_kc_b (constTiles 4 6) 0 12 triA genA (constPolicy 8 10)
        ≤ kc_b_max (constTiles 4 6) triA (constPolicy 8 10)) ∧
    (bli_trmm_determine_kc_f (constTiles 4 6) 0 12 triA genA (constPolicy 8 10)
        < bli_blksz_max_for_type (bli_obj_execution_datatype triA) (constPolicy 8 10)
          + kc_mnr (constTiles 4 6) triA ∧
      bli_trmm_determine_kc_b (constTiles 4 6) 0 12 triA genA (constPolicy 8 10)
        < bli_blksz_max_for_type (bli_obj_execution_datatype triA) (constPolicy 8 10)
          + kc_mnr (constTiles 4 6) triA) ∧
    (kc_mnr (constTiles 4 6) triA
        ∣ bli_blksz_max_for_type (bli_obj_execution_datatype triA) (constPolicy 8 10) →
      bli_trmm_determine_kc_f (constTiles 4 6) 0 12 triA genA (constPolicy 8 10)
        ≤ bli_blksz_max_for_type (bli_obj_execution_datatype triA) (constPolicy 8 10) ∧
      bli_trmm_determine_kc_b (constTiles 4 6) 0 12 triA genA (constPolicy 8 10)
        ≤ bli_blksz_max_for_type (bli_obj_execution_datatype triA) (constPolicy 8 10)) :=
  kc_le_policy_max_aligned (constTiles 4 6) 0 12 triA genA (constPolicy 8 10) (by decide)
    (by decide) (by decide) (by decide) (by decide)

/-- C5: forward selection rule.  With `b_alg`, `b_max` the aligned default and
maximum, `bli_trmm_determine_kc_f` returns `dim - i` when `dim - i ≤ b_max` and
`b_alg` when `dim - i > b_max`; with `b_alg = 8`, `b_max = 12` it gives `8` at
`dim = 100`, `i = 0` and `4` at `dim = 20`, `i = 16`. -/
theorem kc_f_rule :
    (∀ (cfg : reg_blksz_t) (i dim : Int) (a b : obj_t) (bsize : blksz_t),
      (dim - i ≤ bli_align_dim_to_mult
            (bli_blksz_max_for_type (bli_obj_execution_datatype a) bsize) (kc_mnr cfg a) →
        bli_trmm_determine_kc_f cfg i dim a b bsize = dim - i) ∧
      (dim - i > bli_align_dim_to_mult
            (bli_blksz_max_for_type (bli_obj_execution_datatype a) bsize) (kc_mnr cfg a) →
        bli_trmm_determine_kc_f cfg i dim a b bsize
          = bli_align_dim_to_mult
              (bli_blksz_for_type (bli_obj_execution_datatype a) bsize) (kc_mnr cfg a))) ∧
    kc_b_alg (constTiles 4 6) triA (constPolicy 8 12) = 8 ∧
    kc_b_max (constTiles 4 6) triA (constPolicy 8 12) = 12 ∧
    bli_trmm_determine_kc_f (constTiles 4 6) 0 100 triA genA (constPolicy 8 12) = 8 ∧
    bli_trmm_determine_kc_f (constTiles 4 6) 16 20 triA genA (constPolicy 8 12) = 4 := by
  refine ⟨?_, by decide, by decide, by decide, by decide⟩
  intro cfg i dim a b bsize
  rw [kc_f_eq]
  constructor
  · intro h
    exact if_pos h
  · intro h
    exact if_neg (not_le.mpr h)

/-- C6: backward slack redistribution.  With `b_alg`, `b_max` the aligned default
and maximum, `0 < b_alg ≤ b_max`, and `edge = (dim - i) mod b_alg`: whenever
`edge ≠ 0` and `dim - i > b_max`, `bli_trmm_determine_kc_b` returns `b_alg + edge`
if `edge ≤ b_max - b_alg` and `edge` otherwise; either way the value is `> 0` and
`≤ b_max`. -/
theorem kc_b_slack (cfg : reg_blksz_t) (i dim : Int) (a b : obj_t) (bsize : blksz_t)
    (hA : 0 < kc_b_alg cfg a bsize) (hAM : kc_b_alg cfg a bsize ≤ kc_b_max cfg a bsize)
    (he : (dim - i).tmod (kc_b_alg cfg a bsize) ≠ 0)
    (hr : dim - i > kc_b_max cfg a bsize) :
    ((dim - i).tmod (kc_b_alg cfg a bsize) ≤ kc_b_max cfg a bsize - kc_b_alg cfg a bsize →
      bli_trmm_determine_kc_b cfg i dim a b bsize
        = kc_b_alg cfg a bsize + (dim - i).tmod (kc_b_alg cfg a bsize)) ∧
    (¬ (dim - i).tmod (kc_b_alg cfg a bsize) ≤ kc_b_max cfg a bsize - kc_b_alg cfg a bsize →
      bli_trmm_determine_kc_b cfg i dim a b bsize
        = (dim - i).tmod (kc_b_alg cfg a bsize)) ∧
    0 < bli_trmm_determine_kc_b cfg i dim a b bsize ∧
    bli_trmm_determine_kc_b cfg i dim a b bsize ≤ kc_b_max cfg a bsize := by
  have hi : i < dim := by omega
  have hstep := kc_b_step i dim b hi hA hAM
  refine ⟨?_, ?_, hstep.1, hstep.2.2⟩
  · intro h
    rw [kc_b_eq, if_neg he, if_neg (not_le.mpr hr), if_pos h]
  · intro h
    rw [kc_b_eq, if_neg he, if_neg (not_le.mpr hr), if_neg h]

theorem kc_b_slack_witness :
    bli_trmm_determine_kc_b (constTiles 4 6) 0 100 triA genA (constPolicy 8 12) = 12 ∧
    bli_trmm_determine_kc_b (constTiles 4 6) 0 17 triA genA (constPolicy 8 8) = 1 ∧
    (((100 - 0 : Int).tmod (kc_b_alg (constTiles 4 6) triA (constPolicy 8 12))
        ≤ kc_b_max (constTiles 4 6) triA (constPolicy 8 12)
          - kc_b_alg (constTiles 4 6) triA (constPolicy 8 12) →
      bli_trmm_determine_kc_b (constTiles 4 6) 0 100 triA genA (constPolicy 8 12)
        = kc_b_alg (constTiles 4 6) triA (constPolicy 8 12)
          + (100 - 0 : Int).tmod (kc_b_alg (constTiles 4 6) triA (constPolicy 8 12))) ∧
    (¬ (100 - 0 : Int).tmod (kc_b_alg (constTiles 4 6) triA (constPolicy 8 12))
        ≤ kc_b_max (constTiles 4 6) triA (constPolicy 8 12)
          - kc_b_alg (constTiles 4 6) triA (constPolicy 8 12) →
      bli_trmm_determine_kc_b (constTiles 4 6) 0 100 triA genA (constPolicy 8 12)
        = (100 - 0 : Int).tmod (kc_b_alg (constTiles 4 6) triA (constPolicy 8 12))) ∧
    0 < bli_trmm_determine_kc_b (constTiles 4 6) 0 100 triA genA (constPolicy 8 12) ∧
    bli_trmm_determine_kc_b (constTiles 4 6) 0 100 triA genA (constPolicy 8 12)
      ≤ kc_b_max (constTiles 4 6) triA (constPolicy 8 12)) :=
  ⟨by decide, by decide,
   kc_b_slack (constTiles 4 6) 0 100 triA genA (constPolicy 8 12) (by decide) (by decide)
     (by decide) (by decide)⟩

/-- C7: backward evenness.  Whenever `(dim - i) mod b_alg = 0`, with `b_alg > 0`
the aligned default, `bli_trmm_determine_kc_b` returns exactly `b_alg`, whatever
`b_max` is and whether or not `dim - i ≤ b_max`. -/
theorem kc_b_even (cfg : reg_blksz_t) (i dim : Int) (a b : obj_t) (bsize : blksz_t)
    (hA : 0 < kc_b_alg cfg a bsize)
    (he : (dim - i).tmod (kc_b_alg cfg a bsize) = 0) :
    bli_trmm_determine_kc_b cfg i dim a b bsize = kc_b_alg cfg a bsize := by
  have _ := hA
  rw [kc_b_eq, if_pos he]

theorem kc_b_even_witness :
    (16 - 0 : Int) ≤ kc_b_max (constTiles 4 6) triA (constPolicy 8 16) ∧
    bli_trmm_determine_kc_b (constTiles 4 6) 0 16 triA genA (constPolicy 8 16) = 8 ∧
    bli_trmm_determine_kc_b (constTiles 4 6) 0 16 triA genA (constPolicy 8 16)
      = kc_b_alg (constTiles 4 6) triA (constPolicy 8 16) :=
  ⟨by decide, by decide,
   kc_b_even (constTiles 4 6) 0 16 triA genA (constPolicy 8 16) (by decide) (by decide)⟩

/-- C8: backward final chunk.  For `i < dim` with `(dim - i) mod b_alg ≠ 0` and
`dim - i ≤ b_max` (`b_alg`, `b_max` aligned), `bli_trmm_determine_kc_b` returns
exactly `dim - i`, the value `bli_trmm_determine_kc_f` returns on the same
inputs. -/
theorem kc_b_final (cfg : reg_blksz_t) (i dim : Int) (a b : obj_t) (bsize : blksz_t)
    (hi : i < dim) (he : (dim - i).tmod (kc_b_alg cfg a bsize) ≠ 0)
    (hr : dim - i ≤ kc_b_max cfg a bsize) :
    bli_trmm_determine_kc_b cfg i dim a b bsize = dim - i ∧
    bli_trmm_determine_kc_b cfg i dim a b bsize
      = bli_trmm_determine_kc_f cfg i dim a b bsize := by
  have _ := hi
  have hb : bli_trmm_determine_kc_b cfg i dim a b bsize = dim - i := by
    rw [kc_b_eq, if_neg he, if_pos hr]
  have hf : bli_trmm_determine_kc_f cfg i dim a b bsize = dim - i := by
    rw [kc_f_eq, if_pos hr]
  exact ⟨hb, hb.trans hf.symm⟩

theorem kc_b_final_witness :
    bli_trmm_determine_kc_b (constTiles 4 6) 16 20 triA genA (constPolicy 8 12) = 4 ∧
    (bli_trmm_determine_kc_b (constTiles 4 6) 16 20 triA genA (constPolicy 8 12) = 20 - 16 ∧
    bli_trmm_determine_kc_b (constTiles 4 6) 16 20 triA genA (constPolicy 8 12)
      = bli_trmm_determine_kc_f (constTiles 4 6) 16 20 triA genA (constPolicy 8 12)) :=
  ⟨by decide,
   kc_b_final (constTiles 4 6) 16 20 triA genA (constPolicy 8 12) (by decide) (by decide)
     (by decide)⟩

/-- C10: selection of the alignment factor.  In both selectors, when the root of
`a` is triangular the default and maximum are aligned to `MR` of the execution
datatype of `a`, otherwise to `NR` of that datatype.  Hence for a triangular `a`
the returned value does not change when `NR` changes, and for a non-triangular
`a` it does not change when `MR` changes. -/
theorem kc_mnr_selection (cfg cfg2 : reg_blksz_t) (i dim : Int) (a b : obj_t)
    (bsize : blksz_t) :
    (bli_obj_root_is_triangular a = true →
      bli_trmm_determine_kc_f cfg i dim a b bsize
        = kc_f_choice
            (bli_align_dim_to_mult (bli_blksz_for_type (bli_obj_execution_datatype a) bsize)
              (bli_info_get_default_mr cfg (bli_obj_execution_datatype a)))
            (bli_align_dim_to_mult
              (bli_blksz_max_for_type (bli_obj_execution_datatype a) bsize)
              (bli_info_get_default_mr cfg (bli_obj_execution_datatype a))) i dim ∧
      bli_trmm_determine_kc_b cfg i dim a b bsize
        = kc_b_choice
            (bli_align_dim_to_mult (bli_blksz_for_type (bli_obj_execution_datatype a) bsize)
              (bli_info_get_default_mr cfg (bli_obj_execution_datatype a)))
            (bli_align_dim_to_mult
              (bli_blksz_max_for_type (bli_obj_execution_datatype a) bsize)
              (bli_info_get_default_mr cfg (bli_obj_execution_datatype a))) i dim ∧
      (bli_info_get_default_mr cfg2 (bli_obj_execution_datatype a)
          = bli_info_get_default_mr cfg (bli_obj_execution_datatype a) →
        bli_trmm_determine_kc_f cfg2 i dim a b bsize
            = bli_trmm_determine_kc_f cfg i dim a b bsize ∧
          bli_trmm_determine_kc_b cfg2 i dim a b bsize
            = bli_trmm_determine_kc_b cfg i dim a b bsize)) ∧
    (bli_obj_root_is_triangular a = false →
      bli_trmm_determine_kc_f cfg i dim a b bsize
        = kc_f_choice
            (bli_align_dim_to_mult (bli_blksz_for_type (bli_obj_execution_datatype a) bsize)
              (bli_info_get_default_nr cfg (bli_obj_execution_datatype a)))
            (bli_align_dim_to_mult
              (bli_blksz_max_for_type (bli_obj_execution_datatype a) bsize)
              (bli_info_get_default_nr cfg (bli_obj_execution_datatype a))) i dim ∧
      bli_trmm_determine_kc_b cfg i dim a b bsize
        = kc_b_choice
            (bli_align_dim_to_mult (bli_blksz_for_type (bli_obj_execution_datatype a) bsize)
              (bli_info_get_default_nr cfg (bli_obj_execution_datatype a)))
            (bli_align_dim_to_mult
              (bli_blksz_max_for_type (bli_obj_execution_datatype a) bsize)
              (bli_info_get_default_nr cfg (bli_obj_execution_datatype a))) i dim ∧
      (bli_info_get_default_nr cfg2 (bli_obj_execution_datatype a)
          = bli_info_get_default_nr cfg (bli_obj_execution_datatype a) →
        bli_trmm_determine_kc_f cfg2 i dim a b bsize
            = bli_trmm_determine_kc_f cfg i dim a b bsize ∧
          bli_trmm_determine_kc_b cfg2 i dim a b bsize
            = bli_trmm_determine_kc_b cfg i dim a b bsize)) := by
  constructor
  · intro ht
    simp only [bli_obj_root_is_triangular] at ht
    refine ⟨?_, ?_, ?_⟩
    · simp [bli_trmm_determine_kc_f, kc_f_choice, ht]
    · simp [bli_trmm_determine_kc_b, kc_b_choice, ht]
    · intro hsame
      simp only [bli_info_get_default_mr, bli_obj_execution_datatype] at hsame
      simp [bli_trmm_determine_kc_f, bli_trmm_determine_kc_b, ht, hsame]
  · intro ht
    simp only [bli_obj_root_is_triangular] at ht
    refine ⟨?_, ?_, ?_⟩
    · simp [bli_trmm_determine_kc_f, kc_f_choice, ht]
    · simp [bli_trmm_determine_kc_b, kc_b_choice, ht]
    · intro hsame
      simp only [bli_info_get_default_nr, bli_obj_execution_datatype] at hsame
      simp [bli_trmm_determine_kc_f, bli_trmm_determine_kc_b, ht, hsame]

theorem kc_mnr_selection_witness :
    (bli_trmm_determine_kc_f (constTiles 4 2) 0 100 triA genA (constPolicy 7 10)
        = bli_trmm_determine_kc_f (constTiles 4 6) 0 100 triA genA (constPolicy 7 10) ∧
      bli_trmm_determine_kc_b (constTiles 4 2) 0 100 triA genA (constPolicy 7 10)
        = bli_trmm_determine_kc_b (constTiles 4 6) 0 100 triA genA (constPolicy 7 10)) ∧
    (bli_trmm_determine_kc_f (constTiles 3 6) 0 100 genA triA (constPolicy 7 10)
        = bli_trmm_determine_kc_f (constTiles 4 6) 0 100 genA triA (constPolicy 7 10) ∧
      bli_trmm_determine_kc_b (constTiles 3 6) 0 100 genA triA (constPolicy 7 10)
        = bli_trmm_determine_kc_b (constTiles 4 6) 0 100 genA triA (constPolicy 7 10)) ∧
    bli_trmm_determine_kc_f (constTiles 4 6) 0 100 triA genA (constPolicy 7 10) = 8 ∧
    bli_trmm_determine_kc_f (constTiles 4 6) 0 100 genA triA (constPolicy 7 10) = 12 :=
  ⟨((kc_mnr_selection (constTiles 4 6) (constTiles 4 2) 0 100 triA genA
      (constPolicy 7 10)).1 rfl).2.2 rfl,
   ((kc_mnr_selection (constTiles 4 6) (constTiles 3 6) 0 100 genA triA
      (constPolicy 7 10)).2 rfl).2.2 rfl,
   by decide, by decide⟩

/-- C11: independence from `b`.  For any two descriptors `b1`, `b2` each selector
returns the same value; more generally the result is determined by `i`, `dim`,
the execution datatype of `a`, its root-triangular flag, the policy entries for
that datatype and the tile defaults `MR`, `NR` of that datatype. -/
theorem kc_independent_of_b (cfg cfg2 : reg_blksz_t) (i dim : Int) (a a2 b1 b2 : obj_t)
    (bsize bsize2 : blksz_t) :
    (bli_trmm_determine_kc_f cfg i dim a b1 bsize
        = bli_trmm_determine_kc_f cfg i dim a b2 bsize ∧
      bli_trmm_determine_kc_b cfg i dim a b1 bsize
        = bli_trmm_determine_kc_b cfg i dim a b2 bsize) ∧
    (bli_obj_execution_datatype a2 = bli_obj_execution_datatype a →
      bli_obj_root_is_triangular a2 = bli_obj_root_is_triangular a →
      bli_blksz_for_type (bli_obj_execution_datatype a) bsize2
        = bli_blksz_for_type (bli_obj_execution_datatype a) bsize →
      bli_blksz_max_for_type (bli_obj_execution_datatype a) bsize2
        = bli_blksz_max_for_type (bli_obj_execution_datatype a) bsize →
      bli_info_get_default_mr cfg2 (bli_obj_execution_datatype a)
        = bli_info_get_default_mr cfg (bli_obj_execution_datatype a) →
      bli_info_get_default_nr cfg2 (bli_obj_execution_datatype a)
        = bli_info_get_default_nr cfg (bli_obj_execution_datatype a) →
      bli_trmm_determine_kc_f cfg2 i dim a2 b2 bsize2
          = bli_trmm_determine_kc_f cfg i dim a b1 bsize ∧
        bli_trmm_determine_kc_b cfg2 i dim a2 b2 bsize2
          = bli_trmm_determine_kc_b cfg i dim a b1 bsize) := by
  refine ⟨⟨rfl, rfl⟩, ?_⟩
  intro hdt htri hv hmax hmr hnr
  simp only [bli_obj_execution_datatype, bli_obj_root_is_triangular, bli_blksz_for_type,
    bli_blksz_max_for_type, bli_info_get_default_mr, bli_info_get_default_nr] at *
  simp [bli_trmm_determine_kc_f, bli_trmm_determine_kc_b, hdt, htri, hv, hmax, hmr, hnr]

theorem kc_independent_of_b_witness :
    (bli_trmm_determine_kc_f (constTiles 4 6) 0 100 triA triA (constPolicy 7 10)
        = bli_trmm_determine_kc_f (constTiles 4 6) 0 100 triA genA (constPolicy 7 10) ∧
      bli_trmm_determine_kc_b (constTiles 4 6) 0 100 triA triA (constPolicy 7 10)
        = bli_trmm_determine_kc_b (constTiles 4 6) 0 100 triA genA (constPolicy 7 10)) ∧
    (bli_trmm_determine_kc_f ⟨fun _ => 4, fun _ => 6⟩ 0 100 ⟨num_t.BLIS_DOUBLE, true⟩ genA
          ⟨fun dt => if dt = num_t.BLIS_DOUBLE then 7 else 99, fun _ => 10⟩
        = bli_trmm_determine_kc_f (constTiles 4 6) 0 100 triA triA (constPolicy 7 10) ∧
      bli_trmm_determine_kc_b ⟨fun _ => 4, fun _ => 6⟩ 0 100 ⟨num_t.BLIS_DOUBLE, true⟩ genA
          ⟨fun dt => if dt = num_t.BLIS_DOUBLE then 7 else 99, fun _ => 10⟩
        = bli_trmm_determine_kc_b (constTiles 4 6) 0 100 triA triA (constPolicy 7 10)) :=
  ⟨(kc_independent_of_b (constTiles 4 6) (constTiles 4 6) 0 100 triA triA triA genA
      (constPolicy 7 10) (constPolicy 7 10)).1,
   (kc_independent_of_b (constTiles 4 6) ⟨fun _ => 4, fun _ => 6⟩ 0 100 triA
      ⟨num_t.BLIS_DOUBLE, true⟩ triA genA (constPolicy 7 10)
      ⟨fun dt => if dt = num_t.BLIS_DOUBLE then 7 else 99, fun _ => 10⟩).2
      rfl rfl (by decide) rfl rfl rfl⟩

/-- C12: the backward sweep puts the odd-sized chunk first.  For `i < dim` with
`dim - i > b_max` and `(dim - i) mod b_alg ≠ 0` (`0 < b_alg ≤ b_max`, aligned),
after advancing `i` by the returned chunk `c` the extent left, `dim - (i + c)`,
is a positive multiple `k * b_alg`; the rest of the sweep then consists of
exactly `k` chunks, each equal to `b_alg`, and ends at `dim`. -/
theorem kc_b_odd_chunk_first (cfg : reg_blksz_t) (i dim : Int) (a b : obj_t)
    (bsize : blksz_t) (hi : i < dim) (hA : 0 < kc_b_alg cfg a bsize)
    (hAM : kc_b_alg cfg a bsize ≤ kc_b_max cfg a bsize)
    (hr : dim - i > kc_b_max cfg a bsize)
    (he : (dim - i).tmod (kc_b_alg cfg a bsize) ≠ 0) :
    0 < dim - (i + bli_trmm_determine_kc_b cfg i dim a b bsize) ∧
    (dim - (i + bli_trmm_determine_kc_b cfg i dim a b bsize)).tmod (kc_b_alg cfg a bsize)
      = 0 ∧
    ∃ k : Nat, 0 < k ∧
      dim - (i + bli_trmm_determine_kc_b cfg i dim a b bsize) = k * kc_b_alg cfg a bsize ∧
      ∀ fuel : Nat, k ≤ fuel →
        traverse (fun j d => bli_trmm_determine_kc_b cfg j d a b bsize) dim fuel
            (i + bli_trmm_determine_kc_b cfg i dim a b bsize)
          = some (dim, List.replicate k (kc_b_alg cfg a bsize)) := by
  have _ := hi
  have hpos : 0 < dim - i := by omega
  obtain ⟨e0, e1⟩ := tmod_bounds (le_of_lt hpos) hA
  have hdecomp := Int.tmod_add_tdiv (dim - i) (kc_b_alg cfg a bsize)
  -- the extent left after this chunk is positive and a multiple of `b_alg`
  have key : 0 < dim - (i + bli_trmm_determine_kc_b cfg i dim a b bsize) ∧
      kc_b_alg cfg a bsize ∣ dim - (i + bli_trmm_determine_kc_b cfg i dim a b bsize) := by
    rw [kc_b_eq, if_neg he, if_neg (not_le.mpr hr)]
    split_ifs with h2
    · refine ⟨by omega, ?_⟩
      refine ⟨(dim - i).tdiv (kc_b_alg cfg a bsize) - 1, ?_⟩
      rw [mul_sub, mul_one]
      omega
    · refine ⟨by omega, ?_⟩
      refine ⟨(dim - i).tdiv (kc_b_alg cfg a bsize), ?_⟩
      omega
  obtain ⟨hleft, q, hq⟩ := key
  have hqpos : 0 < q := factor_pos hA (by rw [← hq]; exact hleft)
  refine ⟨hleft, Int.tmod_eq_zero_of_dvd ⟨q, hq⟩, q.toNat, by omega, ?_, ?_⟩
  · rw [Int.toNat_of_nonneg (le_of_lt hqpos), hq, mul_comm]
  · intro fuel hfuel
    refine traverse_mono_le _ dim (traverse_b_even cfg a b bsize dim q.toNat _ ?_ hA) hfuel
    rw [Int.toNat_of_nonneg (le_of_lt hqpos), hq, mul_comm]

theorem kc_b_odd_chunk_first_witness :
    bli_trmm_determine_kc_b (constTiles 4 6) 0 30 triA genA (constPolicy 7 10) = 6 ∧
    traverse (fun j d => bli_trmm_determine_kc_b (constTiles 4 6) j d triA genA
        (constPolicy 7 10)) 30 3 6 = some (30, [8, 8, 8]) ∧
    (0 < 30 - (0 + bli_trmm_determine_kc_b (constTiles 4 6) 0 30 triA genA (constPolicy 7 10)) ∧
    (30 - (0 + bli_trmm_determine_kc_b (constTiles 4 6) 0 30 triA genA
        (constPolicy 7 10))).tmod (kc_b_alg (constTiles 4 6) triA (constPolicy 7 10)) = 0 ∧
    ∃ k : Nat, 0 < k ∧
      30 - (0 + bli_trmm_determine_kc_b (constTiles 4 6) 0 30 triA genA (constPolicy 7 10))
        = k * kc_b_alg (constTiles 4 6) triA (constPolicy 7 10) ∧
      ∀ fuel : Nat, k ≤ fuel →
        traverse (fun j d => bli_trmm_determine_kc_b (constTiles 4 6) j d triA genA
            (constPolicy 7 10)) 30 fuel
            (0 + bli_trmm_determine_kc_b (constTiles 4 6) 0 30 triA genA (constPolicy 7 10))
          = some (30, List.replicate k (kc_b_alg (constTiles 4 6) triA (constPolicy 7 10)))) :=
  ⟨by decide, by decide,
   kc_b_odd_chunk_first (constTiles 4 6) 0 30 triA genA (constPolicy 7 10) (by decide)
     (by decide) (by decide) (by decide) (by decide)⟩

/-- C13: forward chunk boundaries are aligned.  In the forward sweep that starts
at `i = 0` (valid policy, `mnr > 0`), every offset at which
`bli_trmm_determine_kc_f` is called is a multiple of the aligned default `b_alg`,
hence of `mnr`, and every returned chunk except the last equals `b_alg`. -/
theorem kc_f_boundaries_aligned (cfg : reg_blksz_t) (a b : obj_t) (bsize : blksz_t)
    (dim : Int) (hdim : 0 ≤ dim) (hm : 0 < kc_mnr cfg a)
    (hv : 0 < bli_blksz_for_type (bli_obj_execution_datatype a) bsize)
    (hvm : bli_blksz_for_type (bli_obj_execution_datatype a) bsize
      ≤ bli_blksz_max_for_type (bli_obj_execution_datatype a) bsize)
    (fuel : Nat) (hfuel : dim.toNat ≤ fuel) :
    ∃ tr, calls (fun i d => bli_trmm_determine_kc_f cfg i d a b bsize) dim fuel 0 = some tr ∧
      traverse (fun i d => bli_trmm_determine_kc_f cfg i d a b bsize) dim fuel 0
        = some (dim, tr.map Prod.snd) ∧
      (∀ p ∈ tr, kc_b_alg cfg a bsize ∣ p.1 ∧ kc_mnr cfg a ∣ p.1) ∧
      (∀ p ∈ tr.dropLast, p.2 = kc_b_alg cfg a bsize) := by
  have hA := kc_b_alg_pos hm hv
  have hAM := kc_b_alg_le_max hm hv hvm
  obtain ⟨tr, h1, h2, h3, h4⟩ :=
    calls_f_aligned cfg a b bsize dim hA hAM fuel 0 hdim (dvd_zero _) (by simpa using hfuel)
  refine ⟨tr, h1, h2, ?_, h4⟩
  intro p hp
  exact ⟨h3 p hp, dvd_trans (align_dvd _ _) (h3 p hp)⟩

theorem kc_f_boundaries_aligned_witness :
    calls (fun i d => bli_trmm_determine_kc_f (constTiles 4 6) i d triA genA
        (constPolicy 7 10)) 30 30 0 = some [(0, 8), (8, 8), (16, 8), (24, 6)] ∧
    ∃ tr, calls (fun i d => bli_trmm_determine_kc_f (constTiles 4 6) i d triA genA
        (constPolicy 7 10)) 30 30 0 = some tr ∧
      traverse (fun i d => bli_trmm_determine_kc_f (constTiles 4 6) i d triA genA
        (constPolicy 7 10)) 30 30 0 = some (30, tr.map Prod.snd) ∧
      (∀ p ∈ tr, kc_b_alg (constTiles 4 6) triA (constPolicy 7 10) ∣ p.1 ∧
        kc_mnr (constTiles 4 6) triA ∣ p.1) ∧
      (∀ p ∈ tr.dropLast, p.2 = kc_b_alg (constTiles 4 6) triA (constPolicy 7 10)) :=
  ⟨by decide,
   kc_f_boundaries_aligned (constTiles 4 6) triA genA (constPolicy 7 10) 30 (by decide)
     (by decide) (by decide) (by decide) 30 (by decide)⟩

/-- C14: no overshoot.  For `0 ≤ i < dim`, `mnr > 0` and `0 < default ≤ maximum`,
the value returned by either selector is at most `dim - i`; so advancing `i` by
it moves `i` strictly forward and never past `dim`. -/
theorem kc_no_overshoot (cfg : reg_blksz_t) (i dim : Int) (a b : obj_t) (bsize : blksz_t)
    (hi0 : 0 ≤ i) (hi : i < dim) (hm : 0 < kc_mnr cfg a)
    (hv : 0 < bli_blksz_for_type (bli_obj_execution_datatype a) bsize)
    (hvm : bli_blksz_for_type (bli_obj_execution_datatype a) bsize
      ≤ bli_blksz_max_for_type (bli_obj_execution_datatype a) bsize) :
    (bli_trmm_determine_kc_f cfg i dim a b bsize ≤ dim - i ∧
      bli_trmm_determine_kc_b cfg i dim a b bsize ≤ dim - i) ∧
    (i < i + bli_trmm_determine_kc_f cfg i dim a b bsize ∧
      i + bli_trmm_determine_kc_f cfg i dim a b bsize ≤ dim) ∧
    (i < i + bli_trmm_determine_kc_b cfg i dim a b bsize ∧
      i + bli_trmm_determine_kc_b cfg i dim a b bsize ≤ dim) := by
  have _ := hi0
  have hA := kc_b_alg_pos hm hv
  have hAM := kc_b_alg_le_max hm hv hvm
  have hf := kc_f_step i dim b hi hA hAM
  have hb := kc_b_step i dim b hi hA hAM
  refine ⟨⟨hf.2.1, hb.2.1⟩, ⟨by omega, by omega⟩, ⟨by omega, by omega⟩⟩

theorem kc_no_overshoot_witness :
    (bli_trmm_determine_kc_f (constTiles 4 6) 24 30 triA genA (constPolicy 7 10) ≤ 30 - 24 ∧
      bli_trmm_determine_kc_b (constTiles 4 6) 24 30 triA genA (constPolicy 7 10) ≤ 30 - 24) ∧
    ((24 : Int) < 24 + bli_trmm_determine_kc_f (constTiles 4 6) 24 30 triA genA
        (constPolicy 7 10) ∧
      24 + bli_trmm_determine_kc_f (constTiles 4 6) 24 30 triA genA (constPolicy 7 10) ≤ 30) ∧
    ((24 : Int) < 24 + bli_trmm_determine_kc_b (constTiles 4 6) 24 30 triA genA
        (constPolicy 7 10) ∧
      24 + bli_trmm_determine_kc_b (constTiles 4 6) 24 30 triA genA (constPolicy 7 10) ≤ 30) :=
  kc_no_overshoot (constTiles 4 6) 24 30 triA genA (constPolicy 7 10) (by decide)
    (by decide) (by decide) (by decide) (by decide)

/-- C15: alignment leaves multiples unchanged and is idempotent.  For `mnr > 0`
and a blocksize `v` (a non-negative integer), the aligned value equals `v` if and
only if `v` is a multiple of `mnr`, and aligning the aligned value again gives
the same value; so a policy whose default and maximum are multiples of `mnr` is
used unmodified by both selectors. -/
theorem align_idempotent :
    (∀ v mnr : Int, 0 ≤ v → 0 < mnr →
      (bli_align_dim_to_mult v mnr = v ↔ mnr ∣ v) ∧
      bli_align_dim_to_mult (bli_align_dim_to_mult v mnr) mnr
        = bli_align_dim_to_mult v mnr) ∧
    (∀ (cfg : reg_blksz_t) (i dim : Int) (a b : obj_t) (bsize : blksz_t),
      0 < kc_mnr cfg a →
      0 ≤ bli_blksz_for_type (bli_obj_execution_datatype a) bsize →
      0 ≤ bli_blksz_max_for_type (bli_obj_execution_datatype a) bsize →
      kc_mnr cfg a ∣ bli_blksz_for_type (bli_obj_execution_datatype a) bsize →
      kc_mnr cfg a ∣ bli_blksz_max_for_type (bli_obj_execution_datatype a) bsize →
      kc_b_alg cfg a bsize = bli_blksz_for_type (bli_obj_execution_datatype a) bsize ∧
      kc_b_max cfg a bsize = bli_blksz_max_for_type (bli_obj_execution_datatype a) bsize ∧
      bli_trmm_determine_kc_f cfg i dim a b bsize
        = kc_f_choice (bli_blksz_for_type (bli_obj_execution_datatype a) bsize)
            (bli_blksz_max_for_type (bli_obj_execution_datatype a) bsize) i dim ∧
      bli_trmm_determine_kc_b cfg i dim a b bsize
        = kc_b_choice (bli_blksz_for_type (bli_obj_execution_datatype a) bsize)
            (bli_blksz_max_for_type (bli_obj_execution_datatype a) bsize) i dim) := by
  constructor
  · intro v mnr hv hm
    refine ⟨⟨?_, align_of_dvd hv hm⟩, ?_⟩
    · intro h
      rw [← h]
      exact align_dvd v mnr
    · exact align_of_dvd (le_trans hv (align_ge hv hm)) hm (align_dvd v mnr)
  · intro cfg i dim a b bsize hm hv hmax hdv hdm
    have hA : kc_b_alg cfg a bsize
        = bli_blksz_for_type (bli_obj_execution_datatype a) bsize := align_of_dvd hv hm hdv
    have hM : kc_b_max cfg a bsize
        = bli_blksz_max_for_type (bli_obj_execution_datatype a) bsize :=
      align_of_dvd hmax hm hdm
    refine ⟨hA, hM, ?_, ?_⟩
    · rw [kc_f_eq, hA, hM]
      rfl
    · rw [kc_b_eq, hA, hM]
      rfl

theorem align_idempotent_witness :
    bli_align_dim_to_mult 10 4 = 12 ∧ bli_align_dim_to_mult 12 4 = 12 ∧
    ((bli_align_dim_to_mult 12 4 = 12 ↔ (4 : Int) ∣ 12) ∧
      bli_align_dim_to_mult (bli_align_dim_to_mult 12 4) 4 = bli_align_dim_to_mult 12 4) ∧
    (kc_b_alg (constTiles 4 6) triA (constPolicy 8 12)
        = bli_blksz_for_type (bli_obj_execution_datatype triA) (constPolicy 8 12) ∧
      kc_b_max (constTiles 4 6) triA (constPolicy 8 12)
        = bli_blksz_max_for_type (bli_obj_execution_datatype triA) (constPolicy 8 12) ∧
      bli_trmm_determine_kc_f (constTiles 4 6) 0 100 triA genA (constPolicy 8 12)
        = kc_f_choice (bli_blksz_for_type (bli_obj_execution_datatype triA) (constPolicy 8 12))
            (bli_blksz_max_for_type (bli_obj_execution_datatype triA) (constPolicy 8 12))
            0 100 ∧
      bli_trmm_determine_kc_b (constTiles 4 6) 0 100 triA genA (constPolicy 8 12)
        = kc_b_choice (bli_blksz_for_type (bli_obj_execution_datatype triA) (constPolicy 8 12))
            (bli_blksz_max_for_type (bli_obj_execution_datatype triA) (constPolicy 8 12))
            0 100) :=
  ⟨by decide, by decide, align_idempotent.1 12 4 (by decide) (by decide),
   align_idempotent.2 (constTiles 4 6) 0 100 triA genA (constPolicy 8 12) (by decide)
     (by decide) (by decide) (by decide) (by decide)⟩

/-- C16: alignment preserves the order of default and maximum.  For `mnr > 0` and
a policy with `default ≤ maximum`, the aligned default is at most the aligned
maximum, so `b_max - b_alg` in the edge-balancing branch of
`bli_trmm_determine_kc_b` is never negative; computed in unsigned arithmetic of
any width that holds `b_max`, it does not wrap. -/
theorem kc_b_max_sub_alg_nonneg (cfg : reg_blksz_t) (a : obj_t) (bsize : blksz_t)
    (hm : 0 < kc_mnr cfg a)
    (hvm : bli_blksz_for_type (bli_obj_execution_datatype a) bsize
      ≤ bli_blksz_max_for_type (bli_obj_execution_datatype a) bsize) :
    bli_align_dim_to_mult (bli_blksz_for_type (bli_obj_execution_datatype a) bsize)
        (kc_mnr cfg a)
      ≤ bli_align_dim_to_mult (bli_blksz_max_for_type (bli_obj_execution_datatype a) bsize)
        (kc_mnr cfg a) ∧
    0 ≤ kc_b_max cfg a bsize - kc_b_alg cfg a bsize ∧
    (∀ w : Nat, 0 ≤ kc_b_alg cfg a bsize → kc_b_max cfg a bsize < 2 ^ w →
      (kc_b_max cfg a bsize - kc_b_alg cfg a bsize) % 2 ^ w
        = kc_b_max cfg a bsize - kc_b_alg cfg a bsize) := by
  have hle : kc_b_alg cfg a bsize ≤ kc_b_max cfg a bsize := align_mono_int hvm hm
  refine ⟨hle, by omega, ?_⟩
  intro w h0 hw
  exact Int.emod_eq_of_lt (by omega) (by omega)

theorem kc_b_max_sub_alg_nonneg_witness :
    kc_b_alg (constTiles 4 6) triA (constPolicy 9 10) = 12 ∧
    kc_b_max (constTiles 4 6) triA (constPolicy 9 10) = 12 ∧
    (bli_align_dim_to_mult
        (bli_blksz_for_type (bli_obj_execution_datatype triA) (constPolicy 9 10))
        (kc_mnr (constTiles 4 6) triA)
      ≤ bli_align_dim_to_mult
        (bli_blksz_max_for_type (bli_obj_execution_datatype triA) (constPolicy 9 10))
        (kc_mnr (constTiles 4 6) triA) ∧
    0 ≤ kc_b_max (constTiles 4 6) triA (constPolicy 9 10)
      - kc_b_alg (constTiles 4 6) triA (constPolicy 9 10) ∧
    (∀ w : Nat, 0 ≤ kc_b_alg (constTiles 4 6) triA (constPolicy 9 10) →
      kc_b_max (constTiles 4 6) triA (constPolicy 9 10) < 2 ^ w →
      (kc_b_max (constTiles 4 6) triA (constPolicy 9 10)
          - kc_b_alg (constTiles 4 6) triA (constPolicy 9 10)) % 2 ^ w
        = kc_b_max (constTiles 4 6) triA (constPolicy 9 10)
          - kc_b_alg (constTiles 4 6) triA (constPolicy 9 10))) :=
  ⟨by decide, by decide,
   kc_b_max_sub_alg_nonneg (constTiles 4 6) triA (constPolicy 9 10) (by decide) (by decide)⟩

/-- C17: forward and backward partitions are mirror images when the maximum is
less than twice the default.  For `dim ≥ 0` and aligned values with
`0 < b_alg ≤ b_max < 2 * b_alg`, the list of chunks of the full backward sweep
(from `i = 0` to `i = dim`) is the reverse of the list of chunks of the full
forward sweep. -/
theorem kc_mirror (cfg : reg_blksz_t) (a b : obj_t) (bsize : blksz_t) (dim : Int)
    (hdim : 0 ≤ dim) (hA : 0 < kc_b_alg cfg a bsize)
    (hAM : kc_b_alg cfg a bsize ≤ kc_b_max cfg a bsize)
    (hM2 : kc_b_max cfg a bsize < 2 * kc_b_alg cfg a bsize)
    (fuel : Nat) (hfuel : dim.toNat ≤ fuel) :
    ∃ cs_f cs_b,
      traverse (fun i d => bli_trmm_determine_kc_f cfg i d a b bsize) dim fuel 0
        = some (dim, cs_f) ∧
      traverse (fun i d => bli_trmm_determine_kc_b cfg i d a b bsize) dim fuel 0
        = some (dim, cs_b) ∧
      cs_b = cs_f.reverse := by
  obtain ⟨cf, hf, -⟩ :=
    traverse_covers (fun i d => bli_trmm_determine_kc_f cfg i d a b bsize) dim
      (fun i _ hlt => ⟨(kc_f_step i dim b hlt hA hAM).1, (kc_f_step i dim b hlt hA hAM).2.1⟩)
      fuel 0 (le_refl 0) hdim (by simpa using hfuel)
  obtain ⟨cb, hb, -⟩ :=
    traverse_covers (fun i d => bli_trmm_determine_kc_b cfg i d a b bsize) dim
      (fun i _ hlt => ⟨(kc_b_step i dim b hlt hA hAM).1, (kc_b_step i dim b hlt hA hAM).2.1⟩)
      fuel 0 (le_refl 0) hdim (by simpa using hfuel)
  refine ⟨cf, cb, hf, hb, ?_⟩
  by_cases h0 : dim = 0
  · subst h0
    rw [traverse_of_ge _ (le_refl 0)] at hf hb
    simp only [Option.some.injEq, Prod.mk.injEq, true_and] at hf hb
    rw [← hf, ← hb]
    rfl
  · have hpos : 0 < dim := by omega
    have hq0 : 0 ≤ dim.tdiv (kc_b_alg cfg a bsize) :=
      Int.tdiv_nonneg hdim (le_of_lt hA)
    obtain ⟨e0, e1⟩ := tmod_bounds hdim hA
    have hdecomp := Int.tmod_add_tdiv dim (kc_b_alg cfg a bsize)
    have hcast : ((dim.tdiv (kc_b_alg cfg a bsize)).toNat : Int)
        = dim.tdiv (kc_b_alg cfg a bsize) := Int.toNat_of_nonneg hq0
    obtain ⟨nf, nb, L, hLf, hLb⟩ :=
      mirror_core cfg a b bsize dim hA hAM hM2 (dim.tdiv (kc_b_alg cfg a bsize)).toNat
        (dim.tmod (kc_b_alg cfg a bsize)) e0 e1
        (by rw [hcast, mul_comm]; omega) hpos
    have f1 := traverse_mono_le _ dim hf (Nat.le_max_left fuel nf)
    have f2 := traverse_mono_le _ dim hLf (Nat.le_max_right fuel nf)
    have b1 := traverse_mono_le _ dim hb (Nat.le_max_left fuel nb)
    have b2 := traverse_mono_le _ dim hLb (Nat.le_max_right fuel nb)
    rw [f1] at f2
    rw [b1] at b2
    simp only [Option.some.injEq, Prod.mk.injEq, true_and] at f2 b2
    rw [f2, b2]

theorem kc_mirror_witness :
    traverse (fun i d => bli_trmm_determine_kc_f (constTiles 4 6) i d triA genA
        (constPolicy 7 10)) 30 30 0 = some (30, [8, 8, 8, 6]) ∧
    traverse (fun i d => bli_trmm_determine_kc_b (constTiles 4 6) i d triA genA
        (constPolicy 7 10)) 30 30 0 = some (30, [6, 8, 8, 8]) ∧
    ∃ cs_f cs_b,
      traverse (fun i d => bli_trmm_determine_kc_f (constTiles 4 6) i d triA genA
        (constPolicy 7 10)) 30 30 0 = some (30, cs_f) ∧
      traverse (fun i d => bli_trmm_determine_kc_b (constTiles 4 6) i d triA genA
        (constPolicy 7 10)) 30 30 0 = some (30, cs_b) ∧
      cs_b = cs_f.reverse :=
  ⟨by decide, by decide,
   kc_mirror (constTiles 4 6) triA genA (constPolicy 7 10) 30 (by decide) (by decide)
     (by decide) (by decide) 30 (by decide)⟩

/-- C18: the two selectors can disagree on the partition.  Whenever the aligned
values satisfy `b_max ≥ 2 * b_alg > 0`, for `dim = 2 * b_alg` and `i = 0` the
forward selector returns `2 * b_alg` (one chunk covers the dimension) while the
backward selector returns `b_alg` (two chunks of `b_alg` cover it). -/
theorem kc_selectors_disagree (cfg : reg_blksz_t) (a b : obj_t) (bsize : blksz_t)
    (hA : 0 < 2 * kc_b_alg cfg a bsize)
    (h2 : 2 * kc_b_alg cfg a bsize ≤ kc_b_max cfg a bsize) :
    bli_trmm_determine_kc_f cfg 0 (2 * kc_b_alg cfg a bsize) a b bsize
      = 2 * kc_b_alg cfg a bsize ∧
    bli_trmm_determine_kc_b cfg 0 (2 * kc_b_alg cfg a bsize) a b bsize
      = kc_b_alg cfg a bsize ∧
    traverse (fun i d => bli_trmm_determine_kc_f cfg i d a b bsize)
        (2 * kc_b_alg cfg a bsize) 1 0
      = some (2 * kc_b_alg cfg a bsize, [2 * kc_b_alg cfg a bsize]) ∧
    traverse (fun i d => bli_trmm_determine_kc_b cfg i d a b bsize)
        (2 * kc_b_alg cfg a bsize) 2 0
      = some (2 * kc_b_alg cfg a bsize, [kc_b_alg cfg a bsize, kc_b_alg cfg a bsize]) := by
  have hA1 : 0 < kc_b_alg cfg a bsize := by omega
  refine ⟨?_, ?_, ?_, ?_⟩
  · rw [kc_f_eq, if_pos (by omega)]
    omega
  · rw [kc_b_eq, sub_zero, Int.mul_tmod_left, if_pos rfl]
  · exact traverse_f_closed cfg a b bsize _ hA1 0 0 (2 * kc_b_alg cfg a bsize)
      (by simp) hA h2 (fun h => absurd rfl h)
  · exact traverse_b_even cfg a b bsize _ 2 0 (by push_cast; ring) hA1

theorem kc_selectors_disagree_witness :
    kc_b_alg (constTiles 4 6) triA (constPolicy 8 16) = 8 ∧
    bli_trmm_determine_kc_f (constTiles 4 6) 0 16 triA genA (constPolicy 8 16) = 16 ∧
    bli_trmm_determine_kc_b (constTiles 4 6) 0 16 triA genA (constPolicy 8 16) = 8 ∧
    (bli_trmm_determine_kc_f (constTiles 4 6) 0
        (2 * kc_b_alg (constTiles 4 6) triA (constPolicy 8 16)) triA genA (constPolicy 8 16)
      = 2 * kc_b_alg (constTiles 4 6) triA (constPolicy 8 16) ∧
    bli_trmm_determine_kc_b (constTiles 4 6) 0
        (2 * kc_b_alg (constTiles 4 6) triA (constPolicy 8 16)) triA genA (constPolicy 8 16)
      = kc_b_alg (constTiles 4 6) triA (constPolicy 8 16) ∧
    traverse (fun i d => bli_trmm_determine_kc_f (constTiles 4 6) i d triA genA
        (constPolicy 8 16)) (2 * kc_b_alg (constTiles 4 6) triA (constPolicy 8 16)) 1 0
      = some (2 * kc_b_alg (constTiles 4 6) triA (constPolicy 8 16),
          [2 * kc_b_alg (constTiles 4 6) triA (constPolicy 8 16)]) ∧
    traverse (fun i d => bli_trmm_determine_kc_b (constTiles 4 6) i d triA genA
        (constPolicy 8 16)) (2 * kc_b_alg (constTiles 4 6) triA (constPolicy 8 16)) 2 0
      = some (2 * kc_b_alg (constTiles 4 6) triA (constPolicy 8 16),
          [kc_b_alg (constTiles 4 6) triA (constPolicy 8 16),
            kc_b_alg (constTiles 4 6) triA (constPolicy 8 16)])) :=
  ⟨by decide, by decide, by decide,
   kc_selectors_disagree (constTiles 4 6) triA genA (constPolicy 8 16) (by decide)
     (by decide)⟩

/-- C19: the forward trailing chunk is never degenerate.  In the full forward
sweep from `i = 0` with `dim > b_max` (aligned values, `0 < b_alg ≤ b_max`), the
last chunk `r` satisfies `b_max - b_alg < r ≤ b_max` and is congruent to `dim`
modulo `b_alg`. -/
theorem kc_f_last_chunk (cfg : reg_blksz_t) (a b : obj_t) (bsize : blksz_t) (dim : Int)
    (hA : 0 < kc_b_alg cfg a bsize) (hAM : kc_b_alg cfg a bsize ≤ kc_b_max cfg a bsize)
    (hdim : kc_b_max cfg a bsize < dim) (fuel : Nat) (hfuel : dim.toNat ≤ fuel) :
    ∃ cs r, traverse (fun i d => bli_trmm_determine_kc_f cfg i d a b bsize) dim fuel 0
        = some (dim, cs) ∧ cs.getLast? = some r ∧
      kc_b_max cfg a bsize - kc_b_alg cfg a bsize < r ∧ r ≤ kc_b_max cfg a bsize ∧
      Int.ModEq (kc_b_alg cfg a bsize) r dim := by
  obtain ⟨cs, r, h1, h2, h3, h4, h5⟩ :=
    traverse_f_last cfg a b bsize dim hA hAM fuel 0 (by omega) (dvd_zero _) (by omega)
      (by simpa using hfuel)
  exact ⟨cs, r, h1, h2, h3, h4, Int.modEq_iff_dvd.mpr h5⟩

theorem kc_f_last_chunk_witness :
    traverse (fun i d => bli_trmm_determine_kc_f (constTiles 4 6) i d triA genA
        (constPolicy 7 10)) 30 30 0 = some (30, [8, 8, 8, 6]) ∧
    ∃ cs r, traverse (fun i d => bli_trmm_determine_kc_f (constTiles 4 6) i d triA genA
        (constPolicy 7 10)) 30 30 0 = some (30, cs) ∧ cs.getLast? = some r ∧
      kc_b_max (constTiles 4 6) triA (constPolicy 7 10)
        - kc_b_alg (constTiles 4 6) triA (constPolicy 7 10) < r ∧
      r ≤ kc_b_max (constTiles 4 6) triA (constPolicy 7 10) ∧
      Int.ModEq (kc_b_alg (constTiles 4 6) triA (constPolicy 7 10)) r 30 :=
  ⟨by decide,
   kc_f_last_chunk (constTiles 4 6) triA genA (constPolicy 7 10) 30 (by decide) (by decide)
     (by decide) 30 (by decide)⟩

/-- C20: the precondition `i < dim` matters for the backward selector only.  At
`i = dim` (nothing left; valid policy, `mnr > 0`) `bli_trmm_determine_kc_f`
returns `0`, whereas `bli_trmm_determine_kc_b` returns the aligned default
`b_alg > 0`, which exceeds the extent `dim - i = 0` that is left. -/
theorem kc_at_end (cfg : reg_blksz_t) (i dim : Int) (a b : obj_t) (bsize : blksz_t)
    (hi : i = dim) (hm : 0 < kc_mnr cfg a)
    (hv : 0 < bli_blksz_for_type (bli_obj_execution_datatype a) bsize)
    (hvm : bli_blksz_for_type (bli_obj_execution_datatype a) bsize
      ≤ bli_blksz_max_for_type (bli_obj_execution_datatype a) bsize) :
    bli_trmm_determine_kc_f cfg i dim a b bsize = 0 ∧
    bli_trmm_determine_kc_b cfg i dim a b bsize = kc_b_alg cfg a bsize ∧
    0 < kc_b_alg cfg a bsize ∧
    dim - i < bli_trmm_determine_kc_b cfg i dim a b bsize := by
  have hA := kc_b_alg_pos hm hv
  have hAM := kc_b_alg_le_max hm hv hvm
  have hb : bli_trmm_determine_kc_b cfg i dim a b bsize = kc_b_alg cfg a bsize := by
    rw [kc_b_eq, hi, sub_self, Int.zero_tmod, if_pos rfl]
  refine ⟨?_, hb, hA, ?_⟩
  · rw [kc_f_eq, hi, sub_self, if_pos (by omega)]
  · rw [hb]
    omega

theorem kc_at_end_witness :
    bli_trmm_determine_kc_f (constTiles 4 6) 30 30 triA genA (constPolicy 7 10) = 0 ∧
    bli_trmm_determine_kc_b (constTiles 4 6) 30 30 triA genA (constPolicy 7 10)
      = kc_b_alg (constTiles 4 6) triA (constPolicy 7 10) ∧
    0 < kc_b_alg (constTiles 4 6) triA (constPolicy 7 10) ∧
    (30 : Int) - 30 < bli_trmm_determine_kc_b (constTiles 4 6) 30 30 triA genA
      (constPolicy 7 10) :=
  kc_at_end (constTiles 4 6) 30 30 triA genA (constPolicy 7 10) rfl (by decide) (by decide)
    (by decide)

end BlisTrmm
